import Mathlib

set_option maxRecDepth 8192
set_option maxHeartbeats 1000000

/-!
Verification of the AESOPNE Farcade integration scripts.

The repository holds two near-duplicate Node scripts
(`src/remixIntegration.js` and an unnamed sibling, here `Part0`) that read
`index.html`, inject a Farcade SDK script tag and several glue-code hooks by
regex substitution, and write `index.farcade.html`.

Documents are modelled as `List Char`.  Every pattern in the scripts is a
non-global JavaScript regex built from literal fragments joined by the lazy
gap `[\s\S]*?`, the greedy classes `[^)]+` / `\s*`, or nothing; for such
patterns the leftmost JavaScript match is computed by scanning start
positions left to right and, at each position, taking the shortest lazy
gaps (first occurrence of the following literal) and maximal greedy runs
(the next pattern element always starts with a character outside the class,
so backtracking cannot shorten a greedy run).  The `scan` combinator below
implements exactly this position-by-position search.
-/

/-- Boolean prefix test on character lists. -/
def isPrefixB : List Char → List Char → Bool
  | [], _ => true
  | _ :: _, [] => false
  | a :: as, b :: bs => a == b && isPrefixB as bs

/-- Boolean suffix test on character lists. -/
def isSuffixB (p s : List Char) : Bool :=
  isPrefixB p.reverse s.reverse

/-- Boolean substring test; models JavaScript `String.prototype.includes`. -/
def isInfixB (p : List Char) : List Char → Bool
  | [] => isPrefixB p []
  | c :: s => isPrefixB p (c :: s) || isInfixB p s

/-- Whitespace class of the JavaScript regex escape `\s`. -/
def isWs (c : Char) : Bool :=
  c == ' ' || c == '\t' || c == '\n' || c == '\r' || c == '\x0b' ||
  c == '\x0c' || c == '\xa0' || c == '\u1680' ||
  (decide ('\u2000' ≤ c) && decide (c ≤ '\u200a')) ||
  c == '\u2028' || c == '\u2029' || c == '\u202f' || c == '\u205f' ||
  c == '\u3000' || c == '\ufeff'

/-- Scan start positions left to right; at the first position where `t`
matches, return the text before that position together with the match data.
This is the leftmost-match rule of a non-global JavaScript regex. -/
def scan {α : Type} (t : List Char → Option α) : List Char → Option (List Char × α)
  | [] =>
    match t [] with
    | some x => some ([], x)
    | none => none
  | c :: s =>
    match t (c :: s) with
    | some x => some ([], x)
    | none => (scan t s).map (fun y => (c :: y.1, y.2))

/-- Match a literal fragment at the current position.  Returns the matched
text and the remainder. -/
def tryLit (pat s : List Char) : Option (List Char × List Char) :=
  if isPrefixB pat s then some (pat, s.drop pat.length) else none

/-- Match a literal fragment at the current position, additionally requiring
the remainder to satisfy `p` (used for a literal followed by a further
pattern element that constrains what comes next). -/
def tryLitP (pat : List Char) (p : List Char → Bool) (s : List Char) :
    Option (List Char × List Char) :=
  if isPrefixB pat s && p (s.drop pat.length) then
    some (pat, s.drop pat.length)
  else none

/-- Consume `lazy-gap literal` pairs: for each literal in turn, find its
first occurrence in the remaining text (`[\s\S]*?` takes the shortest gap).
Returns the consumed text (gaps and literals) and the remainder. -/
def chainFrom : List (List Char) → List Char → Option (List Char × List Char)
  | [], s => some ([], s)
  | l :: ls, s =>
    match scan (tryLit l) s with
    | none => none
    | some (a, m, r) =>
      match chainFrom ls r with
      | none => none
      | some (b, rest) => some (a ++ m ++ b, rest)

/-- Match `l0 [\s\S]*? l1 [\s\S]*? …` at the current position. -/
def tryChain (l0 : List Char) (ls : List (List Char)) (s : List Char) :
    Option (List Char × List Char) :=
  match tryLit l0 s with
  | none => none
  | some (m, r) =>
    match chainFrom ls r with
    | none => none
    | some (b, rest) => some (m ++ b, rest)

/-- JavaScript `String.prototype.replace` with a non-global regex whose
match attempt at one position is `t`: replace the leftmost match using
`render`, or return the string unchanged when there is no match. -/
def replaceRule (t : List Char → Option (List Char × List Char))
    (render : List Char → List Char) (s : List Char) : List Char :=
  match scan t s with
  | none => s
  | some (a, m, r) => a ++ render m ++ r

/-! ### Literal fragments of the patterns -/

/-- The head-closing marker matched by `/<\/head>/`. -/
def headLit : List Char :=
  ("</head>").toList

/-- The SDK script tag inserted before the head-closing marker
(`farcadeScriptTag` in both scripts). -/
def farcadeScriptTag : List Char :=
  ("    <script src=\"https://cdn.jsdelivr.net/npm/@farcade/game-sdk@latest/dist/index.min.js\"></script>").toList

/-- Leading literal of `showTitleScreenPattern`. -/
def showTitleLitA : List Char :=
  ("showTitleScreen() \x7b").toList

/-- Trailing literal of `showTitleScreenPattern`. -/
def showTitleLitB : List Char :=
  ("this.gameElements.forEach(element => element.setVisible(false));").toList

/-- Leading literal of the remix `gameOverScreenPattern`
(`this\.playButton\.setPosition\(` before `[^)]+`). -/
def setPositionLit : List Char :=
  ("this.playButton.setPosition(").toList

/-- Leading literal of the Part0 `gameOverScreenPattern` (fixed coordinates). -/
def part0SetPositionLit : List Char :=
  ("this.playButton.setPosition(450, 1360);").toList

/-- Trailing literal of both `gameOverScreenPattern`s. -/
def setInteractiveLit : List Char :=
  ("this.playButton.setInteractive();").toList

/-- Leading literal of both fallback patterns. -/
def removeAllListenersLit : List Char :=
  ("this.playButton.removeAllListeners();").toList

/-- Literal after `\s*` in the remix `alternativePattern`. -/
def pointerdownLit : List Char :=
  ("this.playButton.on(\x27pointerdown\x27, () => \x7b").toList

/-- Middle literal of the fallback patterns. -/
def startGameLit : List Char :=
  ("this.startGame();").toList

/-- Trailing literal `\}\);` of the fallback patterns. -/
def closeBraceParenLit : List Char :=
  ("\x7d);").toList

/-- Leading literal of the remix `endOfMethodPattern`. -/
def showGameOverLit : List Char :=
  ("showGameOverScreen() \x7b").toList

/-- Middle literal of the remix `endOfMethodPattern`
(`this\.playButton\.on\('pointerdown'`). -/
def pointerdownPrefixLit : List Char :=
  ("this.playButton.on(\x27pointerdown\x27").toList

/-- The guard substring tested with `includes` before each fallback rule. -/
def gameOverMarker : List Char :=
  ("window.FarcadeSDK.singlePlayer.actions.gameOver").toList

/-- The literal matched by `phaserGameInstancePattern`. -/
def phaserGameLit : List Char :=
  ("const game = new Phaser.Game(config);").toList

/-! ### Injected text blocks (the template-literal bodies after `${match}`) -/

/-- Text appended to the `showTitleScreenPattern` match (identical in both
scripts). -/
def readyBlock : List Char :=
  ("\n\n                // Farcade SDK: Signal that the game is fully loaded and ready to play\n                if (window.FarcadeSDK) \x7b\n                    window.FarcadeSDK.singlePlayer.actions.ready();\n                    console.log(\x27Farcade SDK: Game ready signal sent.\x27);\n                \x7d").toList

/-- Text appended to the remix `gameOverScreenPattern` match (4000 ms delay). -/
def remixGameOverBlock : List Char :=
  ("\n\n                // Farcade SDK: Hide our play button and call SDK gameOver after a delay\n                if (window.FarcadeSDK) \x7b\n                    this.playButton.setVisible(false); // Hide our button since Farcade UI takes over\n                    \n                    this.time.delayedCall(4000, () => \x7b\n                        window.FarcadeSDK.singlePlayer.actions.gameOver(\x7b score: this.maxHeight \x7d);\n                        console.log(\x27Farcade SDK: Game over signal sent with score:\x27, this.maxHeight);\n                    \x7d);\n                \x7d").toList

/-- Text appended to the remix `alternativePattern` match. -/
def remixAlternativeBlock : List Char :=
  ("\n\n                // Farcade SDK: Hide button and call gameOver (alternative injection)\n                if (window.FarcadeSDK) \x7b\n                    this.playButton.setVisible(false); // Hide our button since Farcade UI takes over\n                    \n                    this.time.delayedCall(4000, () => \x7b\n                        window.FarcadeSDK.singlePlayer.actions.gameOver(\x7b score: this.maxHeight \x7d);\n                        console.log(\x27Farcade SDK: Game over signal sent with score (alternative):\x27, this.maxHeight);\n                    \x7d);\n                \x7d").toList

/-- Text inserted between the two capture groups of the remix
`endOfMethodPattern`. -/
def remixEndOfMethodBlock : List Char :=
  ("\n\n                // Farcade SDK: Hide button and call gameOver (end-of-method injection)\n                if (window.FarcadeSDK) \x7b\n                    this.playButton.setVisible(false); // Hide our button since Farcade UI takes over\n                    \n                    this.time.delayedCall(4000, () => \x7b\n                        window.FarcadeSDK.singlePlayer.actions.gameOver(\x7b score: this.maxHeight \x7d);\n                        console.log(\x27Farcade SDK: Game over signal sent with score (end-of-method):\x27, this.maxHeight);\n                    \x7d);\n                \x7d").toList

/-- Text appended to the Part0 `gameOverScreenPattern` match (1000 ms delay). -/
def part0GameOverBlock : List Char :=
  ("\n\n                // Farcade SDK: Hide our play button and call SDK gameOver after a delay\n                if (window.FarcadeSDK) \x7b\n                    this.playButton.setVisible(false); // Hide our button since Farcade UI takes over\n                    \n                    this.time.delayedCall(1000, () => \x7b\n                        window.FarcadeSDK.singlePlayer.actions.gameOver(\x7b score: this.maxHeight \x7d);\n                        console.log(\x27Farcade SDK: Game over signal sent with score:\x27, this.maxHeight);\n                    \x7d);\n                \x7d").toList

/-- Text appended to the Part0 `fallbackPattern` match. -/
def part0FallbackBlock : List Char :=
  ("\n\n                // Farcade SDK: Call gameOver after button setup (fallback injection)\n                if (window.FarcadeSDK) \x7b\n                    this.time.delayedCall(1000, () => \x7b\n                        window.FarcadeSDK.singlePlayer.actions.gameOver(\x7b score: this.maxHeight \x7d);\n                        console.log(\x27Farcade SDK: Game over signal sent with score (fallback):\x27, this.maxHeight);\n                    \x7d);\n                \x7d").toList

/-- Text appended to the `phaserGameInstancePattern` match (identical in both
scripts). -/
def phaserBlock : List Char :=
  ("\n\n        // Farcade SDK: Register event handlers for \x27play_again\x27 and \x27toggle_mute\x27\n        if (window.FarcadeSDK) \x7b\n            // Handle play again requests from Farcade\n            window.FarcadeSDK.on(\x27play_again\x27, () => \x7b\n                console.log(\x27Farcade SDK: Play again requested.\x27);\n                const activeScene = game.scene.getScene(\x27VerticalLauncher\x27);\n                if (activeScene && activeScene.startGame) \x7b\n                    // IMPORTANT: Clean up game over elements before restarting\n                    if (activeScene.hideGameOverElements) \x7b\n                        activeScene.hideGameOverElements();\n                        console.log(\x27Farcade SDK: Game over elements cleaned up.\x27);\n                    \x7d\n                    activeScene.startGame();\n                    console.log(\x27Farcade SDK: Game restarted.\x27);\n                \x7d else \x7b\n                    console.warn(\x27Farcade SDK: Could not find active scene to restart game.\x27);\n                \x7d\n            \x7d);\n\n            // Handle mute/unmute requests from Farcade\n            window.FarcadeSDK.on(\x27toggle_mute\x27, (data) => \x7b\n                console.log(\x27Farcade SDK: Mute toggle requested, isMuted:\x27, data.isMuted);\n                // Use Phaser\x27s global sound manager to mute/unmute all audio\n                game.sound.mute = data.isMuted;\n                console.log(\x27Farcade SDK: All game audio mute state set to:\x27, data.isMuted);\n            \x7d);\n\n            console.log(\x27Farcade SDK: Event handlers registered.\x27);\n        \x7d").toList

/-! ### The pattern-specific match attempts -/

/-- Match attempt of the remix `gameOverScreenPattern`
`this\.playButton\.setPosition\([^)]+\);\s*this\.playButton\.setInteractive\(\);`
at the current position.  The greedy `[^)]+` runs to the first `)` and the
greedy `\s*` to the first non-whitespace character; neither can backtrack
because the following element starts outside the class. -/
def tryGameOverRemix (s : List Char) : Option (List Char × List Char) :=
  if isPrefixB setPositionLit s then
    let r := s.drop setPositionLit.length
    let body := r.takeWhile (fun c => c != ')')
    let r1 := r.dropWhile (fun c => c != ')')
    if body.isEmpty then none
    else if isPrefixB ([')', ';']) r1 then
      let r2 := r1.drop 2
      let w := r2.takeWhile isWs
      let r3 := r2.dropWhile isWs
      if isPrefixB setInteractiveLit r3 then
        some (setPositionLit ++ body ++ [')', ';'] ++ w ++ setInteractiveLit,
              r3.drop setInteractiveLit.length)
      else none
    else none
  else none

/-- Match attempt of the remix `alternativePattern`
`this\.playButton\.removeAllListeners\(\);\s*this\.playButton\.on\('pointerdown', \(\) => \{[\s\S]*?this\.startGame\(\);[\s\S]*?\}\);`
at the current position. -/
def tryAlternativeRemix (s : List Char) : Option (List Char × List Char) :=
  if isPrefixB removeAllListenersLit s then
    let r := s.drop removeAllListenersLit.length
    let w := r.takeWhile isWs
    let r1 := r.dropWhile isWs
    if isPrefixB pointerdownLit r1 then
      match chainFrom [startGameLit, closeBraceParenLit]
          (r1.drop pointerdownLit.length) with
      | none => none
      | some (b, rest) =>
        some (removeAllListenersLit ++ w ++ pointerdownLit ++ b, rest)
    else none
  else none

/-- Tail test for the remix `endOfMethodPattern`: the second capture group
`(\s*\})` must match right after the first group. -/
def wsThenBrace (s : List Char) : Bool :=
  match s.dropWhile isWs with
  | '}' :: _ => true
  | _ => false

/-- Match attempt of the remix `endOfMethodPattern`
`(showGameOverScreen\(\) \{[\s\S]*?this\.playButton\.on\('pointerdown'[\s\S]*?\}\);)(\s*\})`
at the current position; returns both capture groups and the remainder.
The second lazy gap stops at the first `\}\);` that is followed by
whitespace and `}` (an earlier `\}\);` would make `(\s*\})` fail and force
the lazy gap to grow). -/
def tryEndOfMethodRemix (s : List Char) :
    Option (List Char × List Char × List Char) :=
  if isPrefixB showGameOverLit s then
    match scan (tryLit pointerdownPrefixLit) (s.drop showGameOverLit.length) with
    | none => none
    | some (a1, _, r1) =>
      match scan (tryLitP closeBraceParenLit wsThenBrace) r1 with
      | none => none
      | some (a2, _, r2) =>
        let w := r2.takeWhile isWs
        match r2.dropWhile isWs with
        | '}' :: r3 =>
          some (showGameOverLit ++ a1 ++ pointerdownPrefixLit ++ a2 ++
                  closeBraceParenLit,
                w ++ ['}'], r3)
        | _ => none
  else none

/-! ### The two scripts -/

/-- `injectFarcadeSDK` (identical in both scripts): insert the SDK script
tag right before the first `</head>`. -/
def injectFarcadeSDK (html : List Char) : List Char :=
  replaceRule (tryLit headLit) (fun m => farcadeScriptTag ++ '\n' :: m) html

/-- Step 1 of both scripts: inject the ready hook after the
`showTitleScreenPattern` match. -/
def applyShowTitleRule (html : List Char) : List Char :=
  replaceRule (tryChain showTitleLitA [showTitleLitB])
    (fun m => m ++ readyBlock) html

/-- Last step of both scripts: inject the event handlers after the
`phaserGameInstancePattern` match. -/
def applyPhaserRule (html : List Char) : List Char :=
  replaceRule (tryLit phaserGameLit) (fun m => m ++ phaserBlock) html

namespace Remix

/-- Step 2 of `src/remixIntegration.js`: the primary game-over rule. -/
def applyGameOverRule (html : List Char) : List Char :=
  replaceRule tryGameOverRemix (fun m => m ++ remixGameOverBlock) html

/-- Step 3 of `src/remixIntegration.js`: the alternative game-over rule,
guarded by `modifiedHtml.includes('window.FarcadeSDK.singlePlayer.actions.gameOver')`. -/
def applyAlternativeRule (html : List Char) : List Char :=
  if isInfixB gameOverMarker html then html
  else replaceRule tryAlternativeRemix (fun m => m ++ remixAlternativeBlock) html

/-- Step 4 of `src/remixIntegration.js`: the end-of-method game-over rule,
guarded like step 3; the injected block goes between the two capture
groups. -/
def applyEndOfMethodRule (html : List Char) : List Char :=
  if isInfixB gameOverMarker html then html
  else
    match scan tryEndOfMethodRemix html with
    | none => html
    | some (a, g1, g2, r) => a ++ g1 ++ remixEndOfMethodBlock ++ g2 ++ r

/-- `injectFarcadeGameLogic` of `src/remixIntegration.js`: ready hook, then
the primary game-over rule, the guarded alternative rule, the guarded
end-of-method rule, and the event-handler rule, in source order. -/
def injectFarcadeGameLogic (html : List Char) : List Char :=
  applyPhaserRule
    (applyEndOfMethodRule (applyAlternativeRule (applyGameOverRule
      (applyShowTitleRule html))))

end Remix

namespace Part0

/-- Step 2 of the unnamed script: the fixed-coordinates game-over rule. -/
def applyGameOverRule (html : List Char) : List Char :=
  replaceRule (tryChain part0SetPositionLit [setInteractiveLit])
    (fun m => m ++ part0GameOverBlock) html

/-- Step 3 of the unnamed script: the fallback game-over rule, guarded by
`modifiedHtml.includes('window.FarcadeSDK.singlePlayer.actions.gameOver')`. -/
def applyFallbackRule (html : List Char) : List Char :=
  if isInfixB gameOverMarker html then html
  else replaceRule
    (tryChain removeAllListenersLit [startGameLit, closeBraceParenLit])
    (fun m => m ++ part0FallbackBlock) html

/-- `injectFarcadeGameLogic` of the unnamed script `src/unnamed/part_000`:
ready hook, the fixed-coordinates game-over rule, the guarded fallback rule,
and the event-handler rule, in source order. -/
def injectFarcadeGameLogic (html : List Char) : List Char :=
  applyPhaserRule (applyFallbackRule (applyGameOverRule
    (applyShowTitleRule html)))

end Part0

/-! ### File system model and the top-level `integrateFarcade` -/

/-- The hardcoded `config` object shared by both scripts. -/
structure Config where
  indexTemplate : String
  outputFile : String
deriving DecidableEq

/-- `config` of both scripts. -/
def config : Config :=
  { indexTemplate := "index.html", outputFile := "index.farcade.html" }

/-- A file system: stored files (first binding for a path wins) and the set
of paths the operating system lets the process write (writes elsewhere fail,
modelling a missing directory or missing permission). -/
structure FileSystem where
  files : List (String × List Char)
  writable : List String
deriving DecidableEq

/-- The I/O-relevant console diagnostics of the scripts.  Pure progress
prints carry no information about the computation and are not modelled. -/
inductive LogEvent where
  | errorReading (filePath : String)
  | abortTemplate
  | successfullyCreated (filePath : String)
  | errorWriting (filePath : String)
deriving DecidableEq

/-- Whether a run ended on the early `return` after a failed template read
(`aborted`) or ran to the final completion prints (`completed`).  The
JavaScript function returns `undefined` in both cases; the constructor
records which code path was taken. -/
inductive RunResult where
  | aborted
  | completed
deriving DecidableEq

/-- `readFile`: `fs.readFileSync` inside try/catch; a missing or unreadable
file yields `null`, modelled as `none`. -/
def readFile (filePath : String) (fs : FileSystem) : Option (List Char) :=
  fs.files.lookup filePath

/-- `writeFile`: `fs.writeFileSync` inside try/catch.  On failure the error
is only logged; the function (like its JavaScript original) gives its caller
no error value. -/
def writeFile (filePath : String) (content : List Char) (fs : FileSystem) :
    FileSystem × List LogEvent :=
  if fs.writable.contains filePath then
    ({ fs with files := (filePath, content) :: fs.files },
     [LogEvent.successfullyCreated filePath])
  else (fs, [LogEvent.errorWriting filePath])

namespace Remix

/-- `integrateFarcade` of `src/remixIntegration.js`.  Note that the guard
`if (!htmlContent)` also fires on an empty template because the empty
JavaScript string is falsy. -/
def integrateFarcade (fs : FileSystem) : FileSystem × List LogEvent × RunResult :=
  match readFile config.indexTemplate fs with
  | none =>
    (fs, [LogEvent.errorReading config.indexTemplate, LogEvent.abortTemplate],
     RunResult.aborted)
  | some htmlContent =>
    if htmlContent.isEmpty then (fs, [LogEvent.abortTemplate], RunResult.aborted)
    else
      let h1 := injectFarcadeSDK htmlContent
      let h2 := injectFarcadeGameLogic h1
      let fsw := writeFile config.outputFile h2 fs
      (fsw.1, fsw.2, RunResult.completed)

end Remix

namespace Part0

/-- `integrateFarcade` of the unnamed script; only the transformation step
differs from the remix version. -/
def integrateFarcade (fs : FileSystem) : FileSystem × List LogEvent × RunResult :=
  match readFile config.indexTemplate fs with
  | none =>
    (fs, [LogEvent.errorReading config.indexTemplate, LogEvent.abortTemplate],
     RunResult.aborted)
  | some htmlContent =>
    if htmlContent.isEmpty then (fs, [LogEvent.abortTemplate], RunResult.aborted)
    else
      let h1 := injectFarcadeSDK htmlContent
      let h2 := injectFarcadeGameLogic h1
      let fsw := writeFile config.outputFile h2 fs
      (fsw.1, fsw.2, RunResult.completed)

end Part0

/-! ### Occurrence counting and straddle exclusion -/

/-- `pat` occurs in `s` at position `i`. -/
def occAt (pat s : List Char) (i : Nat) : Bool :=
  isPrefixB pat (s.drop i)

/-- Number of positions at which `pat` occurs in `s` (overlaps counted). -/
def countOcc (pat s : List Char) : Nat :=
  ((List.range (s.length + 1)).filter (fun i => occAt pat s i)).length

/-- No occurrence of `pat` spans the boundary between `a` and `b` in
`a ++ b`. -/
def NoStraddle (pat a b : List Char) : Prop :=
  ∀ k, 0 < k → k < pat.length → ¬ (pat.take k <:+ a ∧ pat.drop k <+: b)

/-- Compare a candidate straddle piece with a concrete suffix context:
whether `p` could end a list that ends in `c`. -/
def suffComp (p c : List Char) : Bool :=
  if p.length ≤ c.length then isSuffixB p c else isSuffixB c p

/-- Compare a candidate straddle piece with a concrete prefix context:
whether `p` could start a list that starts with `c`. -/
def prefComp (p c : List Char) : Bool :=
  if p.length ≤ c.length then isPrefixB p c else isPrefixB c p

/-- Decidable certificate that no occurrence of `pat` can straddle a
boundary lying immediately after the concrete text `c`. -/
def leftBlocksB (pat c : List Char) : Bool :=
  (List.range pat.length).all fun k => k == 0 || !(suffComp (pat.take k) c)

/-- Decidable certificate that no occurrence of `pat` can straddle a
boundary lying immediately before the concrete text `c`. -/
def rightBlocksB (pat c : List Char) : Bool :=
  (List.range pat.length).all fun k => k == 0 || !(prefComp (pat.drop k) c)

/-- Decidable certificate that the concrete text `c` has no position `t`
whose prefix is all inside the class `g` and where `pat` occurs: used to show
that a greedy class run followed by `pat` cannot land inside `c`. -/
def gapBlocksB (g : Char → Bool) (pat c : List Char) : Bool :=
  (List.range (c.length + 1)).all fun t =>
    !(((c.take t).all g) && isPrefixB pat (c.drop t))

/-- `Insertions s t`: `t` is obtained from `s` by inserting finitely many
text blocks, never deleting or altering a character of `s`. -/
inductive Insertions (s : List Char) : List Char → Prop where
  | refl : Insertions s s
  | snoc (u v w : List Char) : Insertions s (u ++ w) → Insertions s (u ++ v ++ w)

/-! ### Concrete documents for witnesses and counterexamples -/

/-- A document consisting of the remix alternative anchor (also the unnamed
script's fallback anchor): listener removal, pointerdown handler setup with a
`startGame()` call, and the closing `\x7d);`. -/
def c3doc : List Char :=
  ("this.playButton.removeAllListeners(); this.playButton.on(\x27pointerdown\x27, () => \x7b this.startGame(); \x7d);").toList

/-- `c3doc` preceded by two copies of the game-over marker already present
in the source. -/
def c3bad : List Char := gameOverMarker ++ gameOverMarker ++ c3doc

/-- A document consisting of exactly the primary game-over anchor of both
scripts: the fixed-coordinates `setPosition` call and the `setInteractive`
call. -/
def c4doc : List Char :=
  ("this.playButton.setPosition(450, 1360); this.playButton.setInteractive();").toList

/-- A document that already contains the SDK script reference, followed by
one head-closing marker. -/
def c5bad : List Char := farcadeScriptTag ++ headLit

/-- A document consisting of exactly the Phaser instance-creation anchor;
it has no head-closing marker. -/
def c2doc : List Char := phaserGameLit

/-- `c3doc` preceded by one copy of the game-over marker. -/
def c10doc : List Char := gameOverMarker ++ c3doc

/-- A file system holding a one-character template in which no path is
writable (the destination directory does not exist). -/
def c1fs : FileSystem := { files := [("index.html", ['x'])], writable := [] }

/-- A file system holding the template `c2doc` with a writable
destination. -/
def c2fs : FileSystem :=
  { files := [("index.html", c2doc)], writable := ["index.farcade.html"] }

/-- An empty file system: the template is absent. -/
def c6fs : FileSystem := { files := [], writable := [] }

/-- A file system holding a one-character template with a writable
destination. -/
def c8fs : FileSystem :=
  { files := [("index.html", ['x'])], writable := ["index.farcade.html"] }

/-! (end of definitions) -/

/-! ### Bridging the boolean predicates to `List.IsPrefix` and friends -/

theorem isPrefixB_iff {p s : List Char} : isPrefixB p s = true ↔ p <+: s := by
  induction p generalizing s with
  | nil => simp [isPrefixB]
  | cons a as ih =>
    cases s with
    | nil => simp [isPrefixB]
    | cons b bs => simp [isPrefixB, ih, List.cons_prefix_cons]

theorem isSuffixB_iff {p s : List Char} : isSuffixB p s = true ↔ p <:+ s := by
  simp [isSuffixB, isPrefixB_iff]

theorem isInfixB_iff {p s : List Char} : isInfixB p s = true ↔ p <:+: s := by
  induction s with
  | nil => simp [isInfixB, isPrefixB_iff]
  | cons c t ih =>
    rw [isInfixB, List.infix_cons_iff]
    simp [isPrefixB_iff, ih]

/-! ### Properties of `scan` -/

theorem scan_eq_some {α : Type} {t : List Char → Option α} :
    ∀ {s a : List Char} {x : α},
      scan t s = some (a, x) → ∃ r, s = a ++ r ∧ t r = some x := by
  intro s
  induction s with
  | nil =>
    intro a x h
    rw [scan] at h
    cases ht : t [] with
    | none => rw [ht] at h; cases h
    | some y =>
      rw [ht] at h
      simp only [Option.some.injEq, Prod.mk.injEq] at h
      obtain ⟨rfl, rfl⟩ := h
      exact ⟨[], rfl, ht⟩
  | cons c s ih =>
    intro a x h
    rw [scan] at h
    cases ht : t (c :: s) with
    | some y =>
      rw [ht] at h
      simp only [Option.some.injEq, Prod.mk.injEq] at h
      obtain ⟨rfl, rfl⟩ := h
      exact ⟨c :: s, rfl, ht⟩
    | none =>
      rw [ht] at h
      simp only [Option.map_eq_some'] at h
      obtain ⟨⟨a', x'⟩, hsc, h2⟩ := h
      simp only [Prod.mk.injEq] at h2
      obtain ⟨rfl, rfl⟩ := h2
      obtain ⟨r, hr, htr⟩ := ih hsc
      exact ⟨r, by rw [hr]; rfl, htr⟩

theorem scan_eq_none {α : Type} {t : List Char → Option α} :
    ∀ {s : List Char}, scan t s = none ↔ ∀ i, t (s.drop i) = none := by
  intro s
  induction s with
  | nil =>
    rw [scan]
    cases ht : t [] with
    | none => simp [ht]
    | some y => simp [ht]
  | cons c s ih =>
    rw [scan]
    cases ht : t (c :: s) with
    | some y =>
      simp only [Option.map_eq_none']
      constructor
      · intro h; cases h
      · intro h
        have := h 0
        rw [List.drop_zero] at this
        rw [ht] at this; cases this
    | none =>
      simp only [Option.map_eq_none', ih]
      constructor
      · intro h i
        cases i with
        | zero => rw [List.drop_zero]; exact ht
        | succ j => exact h j
      · intro h j
        exact h (j + 1)

theorem scan_leftmost {α : Type} {t : List Char → Option α} :
    ∀ {s a : List Char} {x : α},
      scan t s = some (a, x) → ∀ i, i < a.length → t (s.drop i) = none := by
  intro s
  induction s with
  | nil =>
    intro a x h i hi
    rw [scan] at h
    cases ht : t [] with
    | none => rw [ht] at h; cases h
    | some y =>
      rw [ht] at h
      simp only [Option.some.injEq, Prod.mk.injEq] at h
      obtain ⟨rfl, rfl⟩ := h
      cases hi
  | cons c s ih =>
    intro a x h i hi
    rw [scan] at h
    cases ht : t (c :: s) with
    | some y =>
      rw [ht] at h
      simp only [Option.some.injEq, Prod.mk.injEq] at h
      obtain ⟨rfl, rfl⟩ := h
      cases hi
    | none =>
      rw [ht] at h
      simp only [Option.map_eq_some'] at h
      obtain ⟨⟨a', x'⟩, hsc, h2⟩ := h
      simp only [Prod.mk.injEq] at h2
      obtain ⟨rfl, rfl⟩ := h2
      cases i with
      | zero => rw [List.drop_zero]; exact ht
      | succ j =>
        simp only [List.length_cons, Nat.succ_lt_succ_iff] at hi
        exact ih hsc j hi

/-! ### Properties of the match attempts -/

theorem tryLit_eq_some {pat s m r : List Char} :
    tryLit pat s = some (m, r) → m = pat ∧ s = pat ++ r := by
  rw [tryLit]
  split
  · rename_i hp
    intro h
    simp only [Option.some.injEq, Prod.mk.injEq] at h
    obtain ⟨rfl, rfl⟩ := h
    refine ⟨rfl, ?_⟩
    have := (isPrefixB_iff).mp hp
    exact (List.prefix_iff_eq_append.mp this).symm
  · intro h; cases h

theorem tryLit_isSome_iff {pat s : List Char} :
    (tryLit pat s).isSome = true ↔ pat <+: s := by
  rw [tryLit]
  split
  · rename_i hp; simpa using (isPrefixB_iff).mp hp
  · rename_i hp
    simp only [Option.isSome_none, Bool.false_eq_true, false_iff]
    intro hc
    exact hp ((isPrefixB_iff).mpr hc ▸ rfl)

theorem chainFrom_eq_some :
    ∀ {ls : List (List Char)} {s b rest : List Char},
      chainFrom ls s = some (b, rest) → s = b ++ rest := by
  intro ls
  induction ls with
  | nil =>
    intro s b rest h
    rw [chainFrom] at h
    simp only [Option.some.injEq, Prod.mk.injEq] at h
    obtain ⟨rfl, rfl⟩ := h.symm.imp Eq.symm Eq.symm
    simp
  | cons l ls ih =>
    intro s b rest h
    rw [chainFrom] at h
    split at h
    · cases h
    · rename_i a m r hsc
      split at h
      · cases h
      · rename_i b' rest' hcf
        simp only [Option.some.injEq, Prod.mk.injEq] at h
        obtain ⟨rfl, rfl⟩ := h
        obtain ⟨r0, hr0, ht⟩ := scan_eq_some hsc
        obtain ⟨rfl, hr1⟩ := tryLit_eq_some ht
        have hr2 := ih hcf
        subst hr2
        rw [hr0, hr1]
        simp

theorem tryLitP_eq_some {pat : List Char} {p : List Char → Bool} {s m r : List Char} :
    tryLitP pat p s = some (m, r) → m = pat ∧ s = pat ++ r ∧ p r = true := by
  rw [tryLitP]
  split
  · rename_i hp
    intro h
    simp only [Option.some.injEq, Prod.mk.injEq] at h
    obtain ⟨rfl, rfl⟩ := h
    simp only [Bool.and_eq_true] at hp
    refine ⟨rfl, ?_, hp.2⟩
    exact (List.prefix_iff_eq_append.mp ((isPrefixB_iff).mp hp.1)).symm
  · intro h; cases h

theorem chainFrom_single_shape {l s b rest : List Char} :
    chainFrom [l] s = some (b, rest) → ∃ a, b = a ++ l := by
  rw [chainFrom]
  split
  · intro h; cases h
  · rename_i a m r hsc
    rw [chainFrom]
    intro h
    simp only [Option.some.injEq, Prod.mk.injEq] at h
    obtain ⟨rfl, rfl⟩ := h
    obtain ⟨r0, hr0, ht⟩ := scan_eq_some hsc
    obtain ⟨rfl, hr1⟩ := tryLit_eq_some ht
    exact ⟨a, by simp⟩

theorem chainFrom_pair_shape {l1 l2 s b rest : List Char} :
    chainFrom [l1, l2] s = some (b, rest) → ∃ a1 a2, b = a1 ++ l1 ++ a2 ++ l2 := by
  rw [chainFrom]
  split
  · intro h; cases h
  · rename_i a m r hsc
    split
    · intro h; cases h
    · rename_i b' rest' hcf
      intro h
      simp only [Option.some.injEq, Prod.mk.injEq] at h
      obtain ⟨rfl, rfl⟩ := h
      obtain ⟨r0, hr0, ht⟩ := scan_eq_some hsc
      obtain ⟨rfl, hr1⟩ := tryLit_eq_some ht
      obtain ⟨a2, rfl⟩ := chainFrom_single_shape hcf
      exact ⟨a, a2, by simp⟩

theorem tryChain_eq_some {l0 : List Char} {ls : List (List Char)} {s m rest : List Char} :
    tryChain l0 ls s = some (m, rest) → s = m ++ rest ∧ ∃ b, m = l0 ++ b := by
  rw [tryChain]
  split
  · intro h; cases h
  · rename_i m0 r ht
    split
    · intro h; cases h
    · rename_i b rest' hcf
      intro h
      simp only [Option.some.injEq, Prod.mk.injEq] at h
      obtain ⟨rfl, rfl⟩ := h
      obtain ⟨rfl, hr⟩ := tryLit_eq_some ht
      have hb := chainFrom_eq_some hcf
      subst hb
      exact ⟨by rw [hr]; simp, b, rfl⟩

theorem tryChain_single_shape {l0 l1 : List Char} {s m rest : List Char} :
    tryChain l0 [l1] s = some (m, rest) →
      s = m ++ rest ∧ ∃ mid, m = l0 ++ mid ++ l1 := by
  rw [tryChain]
  split
  · intro h; cases h
  · rename_i m0 r ht
    split
    · intro h; cases h
    · rename_i b rest' hcf
      intro h
      simp only [Option.some.injEq, Prod.mk.injEq] at h
      obtain ⟨rfl, rfl⟩ := h
      obtain ⟨rfl, hr⟩ := tryLit_eq_some ht
      have hb := chainFrom_eq_some hcf
      subst hb
      obtain ⟨a, rfl⟩ := chainFrom_single_shape hcf
      exact ⟨by rw [hr]; simp, a, by simp⟩

theorem tryChain_pair_shape {l0 l1 l2 : List Char} {s m rest : List Char} :
    tryChain l0 [l1, l2] s = some (m, rest) →
      s = m ++ rest ∧ ∃ m1 m2, m = l0 ++ m1 ++ l1 ++ m2 ++ l2 := by
  rw [tryChain]
  split
  · intro h; cases h
  · rename_i m0 r ht
    split
    · intro h; cases h
    · rename_i b rest' hcf
      intro h
      simp only [Option.some.injEq, Prod.mk.injEq] at h
      obtain ⟨rfl, rfl⟩ := h
      obtain ⟨rfl, hr⟩ := tryLit_eq_some ht
      have hb := chainFrom_eq_some hcf
      subst hb
      obtain ⟨a1, a2, rfl⟩ := chainFrom_pair_shape hcf
      exact ⟨by rw [hr]; simp, a1, a2, by simp⟩

theorem replaceRule_none {t : List Char → Option (List Char × List Char)}
    {render : List Char → List Char} {s : List Char} (h : scan t s = none) :
    replaceRule t render s = s := by
  rw [replaceRule, h]

theorem replaceRule_some {t : List Char → Option (List Char × List Char)}
    {render : List Char → List Char} {s a m r : List Char}
    (h : scan t s = some (a, (m, r))) :
    replaceRule t render s = a ++ render m ++ r := by
  rw [replaceRule, h]

theorem scan_eq_none_of_lead {α : Type} {t : List Char → Option α} {l0 : List Char}
    (hl : ∀ r, (t r).isSome = true → l0 <+: r) {s : List Char}
    (h : ¬ l0 <:+: s) : scan t s = none := by
  rw [scan_eq_none]
  intro i
  cases ht : t (s.drop i) with
  | none => rfl
  | some x =>
    exact absurd (((hl _ (by rw [ht]; rfl)).isInfix).trans
      (List.drop_suffix i s).isInfix) h

theorem tryLit_lead {pat s : List Char} :
    (tryLit pat s).isSome = true → pat <+: s :=
  fun h => tryLit_isSome_iff.mp h

theorem tryChain_lead {l0 : List Char} {ls : List (List Char)} {s : List Char} :
    (tryChain l0 ls s).isSome = true → l0 <+: s := by
  intro h
  cases ht : tryChain l0 ls s with
  | none => rw [ht] at h; cases h
  | some y =>
    obtain ⟨m, rest⟩ := y
    obtain ⟨h1, b, rfl⟩ := tryChain_eq_some ht
    rw [h1]
    simp [List.append_assoc, List.prefix_append]

theorem tryGameOverRemix_lead {s : List Char} :
    (tryGameOverRemix s).isSome = true → setPositionLit <+: s := by
  rw [tryGameOverRemix]
  split
  · rename_i hp
    intro _
    exact isPrefixB_iff.mp hp
  · intro h; cases h

theorem tryAlternativeRemix_lead {s : List Char} :
    (tryAlternativeRemix s).isSome = true → removeAllListenersLit <+: s := by
  rw [tryAlternativeRemix]
  split
  · rename_i hp
    intro _
    exact isPrefixB_iff.mp hp
  · intro h; cases h

theorem tryEndOfMethodRemix_lead {s : List Char} :
    (tryEndOfMethodRemix s).isSome = true → showGameOverLit <+: s := by
  rw [tryEndOfMethodRemix]
  split
  · rename_i hp
    intro _
    exact isPrefixB_iff.mp hp
  · intro h; cases h

theorem insertions_trans {a b c : List Char} :
    Insertions a b → Insertions b c → Insertions a c := by
  intro h1 h2
  induction h2 with
  | refl => exact h1
  | snoc u v w _ ih => exact Insertions.snoc u v w ih

theorem insertions_single {s u v w : List Char} (h : s = u ++ w) :
    Insertions s (u ++ v ++ w) :=
  Insertions.snoc u v w (by rw [← h]; exact Insertions.refl)

theorem replaceRule_insertions {t : List Char → Option (List Char × List Char)}
    {block : List Char}
    (hsound : ∀ r0 m r, t r0 = some (m, r) → r0 = m ++ r) (s : List Char) :
    Insertions s (replaceRule t (fun m => m ++ block) s) := by
  cases hsc : scan t s with
  | none => rw [replaceRule_none hsc]; exact Insertions.refl
  | some y =>
    obtain ⟨a, m, r⟩ := y
    rw [replaceRule_some hsc]
    obtain ⟨r0, hr0, ht⟩ := scan_eq_some hsc
    have hr1 := hsound _ _ _ ht
    have hs : s = (a ++ m) ++ r := by rw [hr0, hr1]; simp
    have : Insertions s ((a ++ m) ++ block ++ r) := insertions_single hs
    simpa [List.append_assoc] using this

theorem append_chain5 {p b q w i rest s r r1 r2 r3 : List Char}
    (h0 : s = p ++ r) (h1 : r = b ++ r1) (h2 : r1 = q ++ r2)
    (h3 : r2 = w ++ r3) (h4 : r3 = i ++ rest) :
    s = p ++ b ++ q ++ w ++ i ++ rest := by
  subst h0; subst h1; subst h2; subst h3; subst h4
  simp [List.append_assoc]

theorem append_chain4 {p w q b rest s r r1 r2 : List Char}
    (h0 : s = p ++ r) (h1 : r = w ++ r1) (h2 : r1 = q ++ r2)
    (h3 : r2 = b ++ rest) :
    s = p ++ w ++ q ++ b ++ rest := by
  subst h0; subst h1; subst h2; subst h3
  simp [List.append_assoc]

theorem ends_append {u y tail : List Char} : ∃ x, u ++ (y ++ tail) = x ++ tail :=
  ⟨u ++ y, by simp [List.append_assoc]⟩

theorem tryGameOverRemix_eq_some {s m rest : List Char} :
    tryGameOverRemix s = some (m, rest) →
      s = m ++ rest ∧ ∃ x, m = x ++ setInteractiveLit := by
  intro h
  simp only [tryGameOverRemix] at h
  split at h
  · split at h
    · cases h
    · split at h
      · split at h
        · rename_i hp hbody hpr hint
          simp only [Option.some.injEq, Prod.mk.injEq] at h
          obtain ⟨rfl, rfl⟩ := h
          constructor
          · apply append_chain5
              ((List.prefix_iff_eq_append.mp (isPrefixB_iff.mp hp)).symm)
              ((List.takeWhile_append_dropWhile _ _).symm)
              ((List.prefix_iff_eq_append.mp (isPrefixB_iff.mp hpr)).symm)
              ((List.takeWhile_append_dropWhile _ _).symm)
              ((List.prefix_iff_eq_append.mp (isPrefixB_iff.mp hint)).symm)
          · exact ⟨_, rfl⟩
        · cases h
      · cases h
  · cases h

theorem tryAlternativeRemix_eq_some {s m rest : List Char} :
    tryAlternativeRemix s = some (m, rest) →
      s = m ++ rest ∧ ∃ x, m = x ++ closeBraceParenLit := by
  intro h
  simp only [tryAlternativeRemix] at h
  split at h
  · split at h
    · split at h
      · cases h
      · rename_i hp _ b rest' hcf
        simp only [Option.some.injEq, Prod.mk.injEq] at h
        obtain ⟨rfl, rfl⟩ := h
        have hsound := chainFrom_eq_some hcf
        constructor
        · apply append_chain4
            ((List.prefix_iff_eq_append.mp (isPrefixB_iff.mp (by assumption))).symm)
            ((List.takeWhile_append_dropWhile _ _).symm)
            ((List.prefix_iff_eq_append.mp (isPrefixB_iff.mp hp)).symm)
            hsound
        · obtain ⟨a1, a2, rfl⟩ := chainFrom_pair_shape hcf
          exact ends_append
    · cases h
  · cases h

theorem append_chain_eom {p a1 q a2 c w r3 s r0 rA r1 rB r2 : List Char}
    (h0 : s = p ++ r0) (h1 : r0 = a1 ++ rA) (h2 : rA = q ++ r1)
    (h3 : r1 = a2 ++ rB) (h4 : rB = c ++ r2) (h5 : r2 = w ++ '}' :: r3) :
    s = (p ++ a1 ++ q ++ a2 ++ c) ++ (w ++ ['}']) ++ r3 := by
  subst h0; subst h1; subst h2; subst h3; subst h4; subst h5
  simp [List.append_assoc]

theorem tryEndOfMethodRemix_eq_some {s g1 g2 rest : List Char} :
    tryEndOfMethodRemix s = some (g1, g2, rest) →
      s = g1 ++ g2 ++ rest ∧ (∃ x, g1 = x ++ closeBraceParenLit) ∧
        ∃ w, g2 = w ++ ['}'] := by
  intro h
  simp only [tryEndOfMethodRemix] at h
  split at h
  · split at h
    · cases h
    · rename_i a1 m1 r1 hsc1
      split at h
      · cases h
      · rename_i a2 m2 r2 hsc2
        split at h
        · rename_i r3 hdw
          simp only [Option.some.injEq, Prod.mk.injEq] at h
          obtain ⟨rfl, rfl, rfl⟩ := h
          obtain ⟨rA, hrA, ht1⟩ := scan_eq_some hsc1
          obtain ⟨hm1, hra⟩ := tryLit_eq_some ht1
          obtain ⟨rB, hrB, ht2⟩ := scan_eq_some hsc2
          obtain ⟨hm2, hrb, _⟩ := tryLitP_eq_some ht2
          refine ⟨?_, ⟨_, rfl⟩, _, rfl⟩
          apply append_chain_eom
            ((List.prefix_iff_eq_append.mp (isPrefixB_iff.mp (by assumption))).symm)
            hrA hra hrB hrb
          rw [← hdw]
          exact (List.takeWhile_append_dropWhile _ _).symm
        · cases h
  · cases h

theorem injectFarcadeSDK_insertions (s : List Char) :
    Insertions s (injectFarcadeSDK s) := by
  rw [injectFarcadeSDK]
  cases hsc : scan (tryLit headLit) s with
  | none => rw [replaceRule_none hsc]; exact Insertions.refl
  | some y =>
    obtain ⟨a, m, r⟩ := y
    rw [replaceRule_some hsc]
    obtain ⟨r0, hr0, ht⟩ := scan_eq_some hsc
    obtain ⟨rfl, hr1⟩ := tryLit_eq_some ht
    have hs : s = a ++ (headLit ++ r) := by rw [hr0, hr1]
    have : Insertions s (a ++ (farcadeScriptTag ++ ['\n']) ++ (headLit ++ r)) :=
      insertions_single hs
    simpa [List.append_assoc] using this

theorem applyShowTitleRule_insertions (s : List Char) :
    Insertions s (applyShowTitleRule s) :=
  replaceRule_insertions (fun _ _ _ h => (tryChain_eq_some h).1) s

theorem applyPhaserRule_insertions (s : List Char) :
    Insertions s (applyPhaserRule s) :=
  replaceRule_insertions
    (fun _ _ _ h => by obtain ⟨rfl, h2⟩ := tryLit_eq_some h; exact h2) s

theorem remixGameOverRule_insertions (s : List Char) :
    Insertions s (Remix.applyGameOverRule s) :=
  replaceRule_insertions (fun _ _ _ h => (tryGameOverRemix_eq_some h).1) s

theorem remixAlternativeRule_insertions (s : List Char) :
    Insertions s (Remix.applyAlternativeRule s) := by
  rw [Remix.applyAlternativeRule]
  split
  · exact Insertions.refl
  · exact replaceRule_insertions (fun _ _ _ h => (tryAlternativeRemix_eq_some h).1) s

theorem remixEndOfMethodRule_insertions (s : List Char) :
    Insertions s (Remix.applyEndOfMethodRule s) := by
  rw [Remix.applyEndOfMethodRule]
  split
  · exact Insertions.refl
  · cases hsc : scan tryEndOfMethodRemix s with
    | none => exact Insertions.refl
    | some y =>
      obtain ⟨a, g1, g2, r⟩ := y
      obtain ⟨r0, hr0, ht⟩ := scan_eq_some hsc
      obtain ⟨hshape, _, _⟩ := tryEndOfMethodRemix_eq_some ht
      have hs : s = (a ++ g1) ++ (g2 ++ r) := by
        rw [hr0, hshape]; simp [List.append_assoc]
      have : Insertions s ((a ++ g1) ++ remixEndOfMethodBlock ++ (g2 ++ r)) :=
        insertions_single hs
      simpa [List.append_assoc] using this

theorem part0GameOverRule_insertions (s : List Char) :
    Insertions s (Part0.applyGameOverRule s) :=
  replaceRule_insertions (fun _ _ _ h => (tryChain_eq_some h).1) s

theorem part0FallbackRule_insertions (s : List Char) :
    Insertions s (Part0.applyFallbackRule s) := by
  rw [Part0.applyFallbackRule]
  split
  · exact Insertions.refl
  · exact replaceRule_insertions (fun _ _ _ h => (tryChain_eq_some h).1) s

theorem remixGameLogic_insertions (s : List Char) :
    Insertions s (Remix.injectFarcadeGameLogic s) := by
  rw [Remix.injectFarcadeGameLogic]
  exact insertions_trans (insertions_trans (insertions_trans (insertions_trans
    (applyShowTitleRule_insertions s)
    (remixGameOverRule_insertions _))
    (remixAlternativeRule_insertions _))
    (remixEndOfMethodRule_insertions _))
    (applyPhaserRule_insertions _)

theorem part0GameLogic_insertions (s : List Char) :
    Insertions s (Part0.injectFarcadeGameLogic s) := by
  rw [Part0.injectFarcadeGameLogic]
  exact insertions_trans (insertions_trans (insertions_trans
    (applyShowTitleRule_insertions s)
    (part0GameOverRule_insertions _))
    (part0FallbackRule_insertions _))
    (applyPhaserRule_insertions _)

/-! ### Occurrence positions and counting -/

theorem occAt_iff {pat s : List Char} {i : Nat} :
    occAt pat s i = true ↔ pat <+: s.drop i := by
  rw [occAt, isPrefixB_iff]

theorem prefix_append_le {p x y : List Char} (h : p.length ≤ x.length) :
    p <+: x ++ y ↔ p <+: x := by
  constructor
  · intro hp
    rw [List.prefix_iff_eq_take] at hp ⊢
    rwa [List.take_append_of_le_length h] at hp
  · intro hp
    exact hp.trans (List.prefix_append x y)

theorem suffix_append_le {p x y : List Char} (h : p.length ≤ y.length) :
    p <:+ x ++ y ↔ p <:+ y := by
  rw [← List.reverse_prefix, ← List.reverse_prefix, List.reverse_append]
  exact prefix_append_le (by simpa using h)

theorem occAt_mono_append {pat s u : List Char} {i : Nat}
    (h : occAt pat s i = true) : occAt pat (s ++ u) i = true := by
  rw [occAt_iff] at h ⊢
  rcases le_or_lt i s.length with hle | hlt
  · rw [List.drop_append_of_le_length hle]
    exact h.trans (List.prefix_append _ _)
  · rw [List.drop_of_length_le (Nat.le_of_lt hlt)] at h
    have : pat = [] := List.prefix_nil.mp h
    subst this
    exact List.nil_prefix
  
theorem occAt_shift {pat a b : List Char} {j : Nat}
    (h : occAt pat b j = true) : occAt pat (a ++ b) (a.length + j) = true := by
  rw [occAt_iff] at h ⊢
  rwa [List.drop_append]

theorem occAt_left_iff {pat a b : List Char} {i : Nat}
    (h : i + pat.length ≤ a.length) :
    (occAt pat (a ++ b) i = true) ↔ (occAt pat a i = true) := by
  rw [occAt_iff, occAt_iff]
  rw [List.drop_append_of_le_length (by omega)]
  exact prefix_append_le (by simp; omega)

theorem occAt_right_iff {pat a b : List Char} {i : Nat}
    (h : a.length ≤ i) :
    (occAt pat (a ++ b) i = true) ↔ (occAt pat b (i - a.length) = true) := by
  rw [occAt_iff, occAt_iff]
  have : i = a.length + (i - a.length) := by omega
  rw [this, List.drop_append, Nat.add_sub_cancel_left]

theorem occAt_straddle {pat a b : List Char} {i : Nat}
    (h : occAt pat (a ++ b) i = true) (h1 : i < a.length)
    (h2 : a.length < i + pat.length) :
    pat.take (a.length - i) <:+ a ∧ pat.drop (a.length - i) <+: b := by
  rw [occAt_iff] at h
  rw [List.drop_append_of_le_length (Nat.le_of_lt h1)] at h
  rw [List.prefix_iff_eq_take] at h
  constructor
  · have : pat.take (a.length - i) = a.drop i := by
      rw [h, List.take_take]
      rw [Nat.min_eq_left (by omega)]
      rw [List.take_append_of_le_length (by simp)]
      rw [List.take_of_length_le (by simp)]
    rw [this]
    exact List.drop_suffix i a
  · have hk : (a.drop i).length = a.length - i := by simp
    have e1 : pat.drop (a.length - i) =
        List.take (pat.length - (a.length - i))
          (List.drop (a.length - i) (a.drop i ++ b)) := by
      conv_lhs => rw [h]
      rw [List.drop_take]
    rw [List.drop_left' hk] at e1
    rw [e1]
    exact List.take_prefix _ _

theorem occAt_length_self {pat a : List Char} (hpat : pat ≠ []) :
    occAt pat a a.length = false := by
  rw [occAt, List.drop_length]
  cases pat with
  | nil => exact absurd rfl hpat
  | cons c p => rfl

theorem noStraddle_occAt {pat a b : List Char} (hns : NoStraddle pat a b)
    {i : Nat} (h : occAt pat (a ++ b) i = true) :
    i + pat.length ≤ a.length ∨ a.length ≤ i := by
  by_contra hc
  push_neg at hc
  obtain ⟨h2, h1⟩ := hc
  exact hns (a.length - i) (by omega) (by omega) (occAt_straddle h h1 h2)

theorem infix_iff_occAt {pat s : List Char} :
    pat <:+: s ↔ ∃ i, i ≤ s.length ∧ occAt pat s i = true := by
  constructor
  · rintro ⟨u, v, rfl⟩
    refine ⟨u.length, by simp, ?_⟩
    rw [occAt_iff, List.append_assoc, List.drop_left]
    exact List.prefix_append _ _
  · rintro ⟨i, _, h⟩
    rw [occAt_iff] at h
    exact h.isInfix.trans (List.drop_suffix i s).isInfix

theorem countOcc_eq_zero {pat s : List Char} :
    countOcc pat s = 0 ↔ ¬ pat <:+: s := by
  rw [countOcc, List.length_eq_zero, List.filter_eq_nil_iff, infix_iff_occAt]
  constructor
  · rintro h ⟨i, hi, hocc⟩
    exact h i (List.mem_range.mpr (by omega)) hocc
  · intro h i hi hocc
    exact h ⟨i, by simpa using Nat.lt_succ_iff.mp (List.mem_range.mp hi), hocc⟩

theorem countOcc_zero_mono {pat s x : List Char}
    (h : countOcc pat s = 0) (hx : x <:+: s) : countOcc pat x = 0 := by
  rw [countOcc_eq_zero] at h ⊢
  exact fun hc => h (hc.trans hx)

theorem countOcc_zero_of_isInfixB {p s : List Char}
    (h : isInfixB p s = false) : countOcc p s = 0 :=
  countOcc_eq_zero.mpr fun hc => by
    have hb := isInfixB_iff.mpr hc
    rw [h] at hb
    cases hb

theorem countOcc_append {pat a b : List Char} (hpat : pat ≠ [])
    (hns : NoStraddle pat a b) :
    countOcc pat (a ++ b) = countOcc pat a + countOcc pat b := by
  rw [countOcc, countOcc, countOcc]
  rw [List.length_append]
  have hsplit : a.length + b.length + 1 = a.length + (b.length + 1) := by omega
  rw [hsplit, List.range_add, List.filter_append, List.length_append]
  congr 1
  · have h1 : List.filter (fun i => occAt pat (a ++ b) i) (List.range a.length) =
        List.filter (fun i => occAt pat a i) (List.range a.length) := by
      apply List.filter_congr
      intro i hi
      have hi' : i < a.length := List.mem_range.mp hi
      cases hoa : occAt pat a i with
      | true => exact occAt_mono_append hoa
      | false =>
        rw [Bool.eq_false_iff]
        intro hx
        rcases noStraddle_occAt hns hx with hle | hge
        · rw [(occAt_left_iff hle).mp hx] at hoa; cases hoa
        · omega
    rw [h1, List.range_succ, List.filter_append, List.length_append]
    have : List.filter (fun i => occAt pat a i) [a.length] = [] := by
      simp [occAt_length_self hpat]
    rw [this]
    simp
  · rw [List.filter_map, List.length_map]
    apply congrArg
    apply List.filter_congr
    intro j hj
    simp only [Function.comp_apply]
    have h2 := @occAt_right_iff pat a b (a.length + j) (by omega)
    rw [Nat.add_sub_cancel_left] at h2
    cases hob : occAt pat b j with
    | true => exact h2.mpr hob
    | false =>
      rw [Bool.eq_false_iff]
      intro hx
      rw [h2.mp hx] at hob
      cases hob

/-! ### Straddle-exclusion certificates -/

theorem suffComp_spec {p c x : List Char} (h : suffComp p c = false) :
    ¬ p <:+ x ++ c := by
  intro hp
  rw [suffComp] at h
  split at h
  · rename_i hl
    have : p <:+ c := (suffix_append_le hl).mp hp
    rw [isSuffixB_iff.mpr this] at h
    cases h
  · rename_i hl
    rcases List.suffix_or_suffix_of_suffix hp (List.suffix_append x c) with h1 | h2
    · have := h1.length_le
      omega
    · rw [isSuffixB_iff.mpr h2] at h
      cases h

theorem prefComp_spec {p c y : List Char} (h : prefComp p c = false) :
    ¬ p <+: c ++ y := by
  intro hp
  rw [prefComp] at h
  split at h
  · rename_i hl
    have : p <+: c := (prefix_append_le hl).mp hp
    rw [isPrefixB_iff.mpr this] at h
    cases h
  · rename_i hl
    rcases List.prefix_or_prefix_of_prefix hp (List.prefix_append c y) with h1 | h2
    · have := h1.length_le
      omega
    · rw [isPrefixB_iff.mpr h2] at h
      cases h

theorem noStraddle_left {pat c : List Char} (h : leftBlocksB pat c = true)
    (x b : List Char) : NoStraddle pat (x ++ c) b := by
  intro k hk0 hkl hand
  rw [leftBlocksB, List.all_eq_true] at h
  have h2 := h k (List.mem_range.mpr hkl)
  simp only [Bool.or_eq_true, beq_iff_eq, Bool.not_eq_true'] at h2
  rcases h2 with h2 | h2
  · omega
  · exact suffComp_spec h2 hand.1

theorem noStraddle_right {pat c : List Char} (h : rightBlocksB pat c = true)
    (a y : List Char) : NoStraddle pat a (c ++ y) := by
  intro k hk0 hkl hand
  rw [rightBlocksB, List.all_eq_true] at h
  have h2 := h k (List.mem_range.mpr hkl)
  simp only [Bool.or_eq_true, beq_iff_eq, Bool.not_eq_true'] at h2
  rcases h2 with h2 | h2
  · omega
  · exact prefComp_spec h2 hand.2

theorem noStraddle_mono_right {pat x C y : List Char}
    (h : NoStraddle pat x (C ++ y)) : NoStraddle pat x C := by
  intro k hk0 hkl hand
  exact h k hk0 hkl ⟨hand.1, hand.2.trans (List.prefix_append C y)⟩

theorem countOcc_insert {pat x y C : List Char} (hpat : pat ≠ [])
    (hxy : NoStraddle pat x y) (hxC : NoStraddle pat x (C ++ y))
    (hCy : NoStraddle pat (x ++ C) y) :
    countOcc pat (x ++ C ++ y) = countOcc pat (x ++ y) + countOcc pat C := by
  rw [countOcc_append hpat hCy, countOcc_append hpat (noStraddle_mono_right hxC),
    countOcc_append hpat hxy]
  omega

theorem replaceRule_countOcc {pat C L : List Char}
    {t : List Char → Option (List Char × List Char)}
    (hpat : pat ≠ [])
    (hsound : ∀ r0 m r, t r0 = some (m, r) → r0 = m ++ r ∧ ∃ m', m = m' ++ L)
    (hL : leftBlocksB pat L = true)
    (hCl : rightBlocksB pat C = true) (hCr : leftBlocksB pat C = true)
    (s : List Char) :
    countOcc pat (replaceRule t (fun m => m ++ C) s) =
      countOcc pat s + (if (scan t s).isSome = true then countOcc pat C else 0) := by
  cases hsc : scan t s with
  | none => rw [replaceRule_none hsc]; simp
  | some y =>
    obtain ⟨a, m, r⟩ := y
    rw [replaceRule_some hsc]
    obtain ⟨r0, hr0, ht⟩ := scan_eq_some hsc
    obtain ⟨hmr, m', rfl⟩ := hsound _ _ _ ht
    have hs : s = ((a ++ m') ++ L) ++ r := by
      rw [hr0, hmr]; simp [List.append_assoc]
    have e : a ++ (m' ++ L ++ C) ++ r = ((a ++ m') ++ L) ++ C ++ r := by
      simp [List.append_assoc]
    rw [hs, e, countOcc_insert hpat (noStraddle_left hL _ _)
      (noStraddle_right hCl _ _) (noStraddle_left hCr _ _)]
    simp

/-! ### Transporting occurrences across a single insertion -/

theorem occAt_mid (u pat v : List Char) :
    occAt pat (u ++ (pat ++ v)) u.length = true := by
  rw [occAt_iff, List.drop_left]
  exact List.prefix_append _ _

theorem scan_isSome_of {α : Type} {t : List Char → Option α} {s : List Char}
    {i : Nat} (h : (t (s.drop i)).isSome = true) : (scan t s).isSome = true := by
  cases hsc : scan t s with
  | some y => rfl
  | none =>
    rw [scan_eq_none] at hsc
    rw [hsc i] at h
    cases h

theorem takeWhile_append_of_all {p : Char → Bool} {g rest : List Char}
    (hg : ∀ c ∈ g, p c = true)
    (h : ∀ c, rest.head? = some c → p c = false) :
    (g ++ rest).takeWhile p = g ∧ (g ++ rest).dropWhile p = rest := by
  induction g with
  | nil =>
    simp only [List.nil_append]
    cases rest with
    | nil => simp
    | cons c r =>
      have := h c rfl
      rw [List.takeWhile_cons, List.dropWhile_cons, this]
      simp
  | cons c g ih =>
    have hc := hg c (by simp)
    obtain ⟨ih1, ih2⟩ := ih (fun x hx => hg x (by simp [hx]))
    rw [List.cons_append, List.takeWhile_cons, List.dropWhile_cons, hc]
    simp [ih1, ih2]

theorem noStraddle_right_plain {pat c : List Char}
    (h : rightBlocksB pat c = true) (a : List Char) : NoStraddle pat a c := by
  intro k hk0 hkl hand
  rw [rightBlocksB, List.all_eq_true] at h
  have h2 := h k (List.mem_range.mpr hkl)
  simp only [Bool.or_eq_true, beq_iff_eq, Bool.not_eq_true'] at h2
  rcases h2 with h2 | h2
  · omega
  · rw [prefComp] at h2
    split at h2
    · rw [isPrefixB_iff.mpr hand.2] at h2
      cases h2
    · rename_i hl
      have := hand.2.length_le
      omega

theorem occAt_insert_fwd {lit x x' L C y : List Char} {i : Nat}
    (hx : x = x' ++ L) (hL : leftBlocksB lit L = true)
    (hocc : occAt lit (x ++ y) i = true) :
    (i + lit.length ≤ x.length ∧ occAt lit (x ++ C ++ y) i = true) ∨
    (x.length ≤ i ∧ occAt lit (x ++ C ++ y) (i + C.length) = true) := by
  have hns : NoStraddle lit x y := by
    rw [hx]; exact noStraddle_left hL x' y
  rcases noStraddle_occAt hns hocc with h1 | h2
  · left
    refine ⟨h1, ?_⟩
    have hxocc : occAt lit x i = true := (occAt_left_iff h1).mp hocc
    have : occAt lit (x ++ C) i = true := occAt_mono_append hxocc
    exact occAt_mono_append this
  · right
    refine ⟨h2, ?_⟩
    have hyocc : occAt lit y (i - x.length) = true := (occAt_right_iff h2).mp hocc
    have := occAt_shift (a := x ++ C) hyocc
    have harith : (x ++ C).length + (i - x.length) = i + C.length := by
      simp; omega
    rwa [harith] at this

theorem occAt_insert_bwd {lit x C y : List Char} {j : Nat} (hlit : lit ≠ [])
    (hC0 : countOcc lit C = 0)
    (hCl : rightBlocksB lit C = true) (hCr : leftBlocksB lit C = true)
    (hocc : occAt lit (x ++ C ++ y) j = true) :
    (j + lit.length ≤ x.length ∧ occAt lit (x ++ y) j = true) ∨
    (x.length + C.length ≤ j ∧ occAt lit (x ++ y) (j - C.length) = true) := by
  have hns1 : NoStraddle lit (x ++ C) y := noStraddle_left hCr x y
  rcases noStraddle_occAt hns1 hocc with h1 | h2
  · -- inside x ++ C
    have hxC : occAt lit (x ++ C) j = true := by
      have := (occAt_left_iff (by simpa using h1)).mp hocc
      exact this
    have hns2 : NoStraddle lit x C := noStraddle_right_plain hCl x
    rcases noStraddle_occAt hns2 hxC with h3 | h4
    · left
      refine ⟨h3, ?_⟩
      exact occAt_mono_append ((occAt_left_iff h3).mp hxC)
    · -- occurrence inside C: contradicts countOcc lit C = 0
      exfalso
      have hcocc : occAt lit C (j - x.length) = true := (occAt_right_iff h4).mp hxC
      have hle : j - x.length ≤ C.length := by
        by_contra hgt
        push_neg at hgt
        rw [occAt, List.drop_of_length_le (Nat.le_of_lt hgt)] at hcocc
        cases lit with
        | nil => exact hlit rfl
        | cons c l => cases hcocc
      have : lit <:+: C := infix_iff_occAt.mpr ⟨j - x.length, hle, hcocc⟩
      exact (countOcc_eq_zero.mp hC0) this
  · -- to the right of C
    right
    have hxCl : (x ++ C).length = x.length + C.length := by simp
    refine ⟨by rw [hxCl] at h2; exact h2, ?_⟩
    have hyocc : occAt lit y (j - (x ++ C).length) = true :=
      (occAt_right_iff h2).mp hocc
    have := occAt_shift (a := x) hyocc
    have harith : x.length + (j - (x ++ C).length) = j - C.length := by
      simp at h2 ⊢
      omega
    rwa [harith] at this

theorem occAt_drop {pat s : List Char} {k j : Nat}
    (h : occAt pat s (k + j) = true) : occAt pat (s.drop k) j = true := by
  rw [occAt_iff] at h ⊢
  rwa [List.drop_drop]

theorem occAt_undrop {pat s : List Char} {k j : Nat}
    (h : occAt pat (s.drop k) j = true) : occAt pat s (k + j) = true := by
  rw [occAt_iff] at h ⊢
  rwa [List.drop_drop] at h

theorem scan_tryLit_isSome_iff {pat s : List Char} :
    (scan (tryLit pat) s).isSome = true ↔ ∃ i, occAt pat s i = true := by
  constructor
  · intro h
    cases hsc : scan (tryLit pat) s with
    | none => rw [hsc] at h; cases h
    | some y =>
      obtain ⟨a, m, rest⟩ := y
      obtain ⟨r0, hr0, ht⟩ := scan_eq_some hsc
      obtain ⟨rfl, hr1⟩ := tryLit_eq_some ht
      refine ⟨a.length, ?_⟩
      rw [hr0, hr1]
      exact occAt_mid _ _ _
  · rintro ⟨i, hi⟩
    apply scan_isSome_of (i := i)
    have hi' : isPrefixB pat (List.drop i s) = true := hi
    rw [tryLit, if_pos hi']
    rfl

theorem chainFrom_single_isSome {B r : List Char}
    (h : ∃ j, occAt B r j = true) : (chainFrom [B] r).isSome = true := by
  rw [chainFrom]
  split
  · rename_i hnone
    rw [scan_eq_none] at hnone
    obtain ⟨j, hj⟩ := h
    have hx : (tryLit B (r.drop j)).isSome = true := by
      have hj' : isPrefixB B (List.drop j r) = true := hj
      rw [tryLit, if_pos hj']
      rfl
    rw [hnone j] at hx
    cases hx
  · rfl

theorem scan_tryLit_leftmost {pat s a m r : List Char}
    (hsc : scan (tryLit pat) s = some (a, (m, r))) :
    ∀ i, i < a.length → occAt pat s i = false := by
  intro i hilt
  have := scan_leftmost hsc i hilt
  rw [tryLit] at this
  split at this
  · cases this
  · rename_i hnp
    exact Bool.eq_false_iff.mpr (fun hc => hnp hc)

theorem chainFrom_pair_isSome {B D r : List Char}
    (h : ∃ j k, occAt B r j = true ∧ occAt D r k = true ∧ j + B.length ≤ k) :
    (chainFrom [B, D] r).isSome = true := by
  obtain ⟨j, k, hB, hD, hjk⟩ := h
  rw [chainFrom]
  split
  · rename_i hnone
    rw [scan_eq_none] at hnone
    have hx : (tryLit B (r.drop j)).isSome = true := by
      have hj' : isPrefixB B (List.drop j r) = true := hB
      rw [tryLit, if_pos hj']
      rfl
    rw [hnone j] at hx
    cases hx
  · rename_i a m r1 hsc
    split
    · rename_i hnone2
      exfalso
      obtain ⟨r0, hr0, ht⟩ := scan_eq_some hsc
      obtain ⟨_, hr1⟩ := tryLit_eq_some ht
      have haj : a.length ≤ j := by
        by_contra hlt
        push_neg at hlt
        rw [scan_tryLit_leftmost hsc j hlt] at hB
        cases hB
      have hrr : r1 = r.drop (a.length + B.length) := by
        rw [hr0, hr1, ← List.append_assoc, List.drop_left' (by simp)]
      have hocc : occAt D r1 (k - (a.length + B.length)) = true := by
        rw [hrr]
        apply occAt_drop
        have : a.length + B.length + (k - (a.length + B.length)) = k := by omega
        rwa [this]
      have := chainFrom_single_isSome ⟨_, hocc⟩
      rw [hnone2] at this
      cases this
    · rfl

theorem chain2_isSome_of_occ {A B s : List Char} {iA iB : Nat}
    (hA : occAt A s iA = true) (hB : occAt B s iB = true)
    (hg : iA + A.length ≤ iB) :
    (scan (tryChain A [B]) s).isSome = true := by
  apply scan_isSome_of (i := iA)
  rw [tryChain]
  have hA' : isPrefixB A (List.drop iA s) = true := hA
  rw [tryLit, if_pos hA']
  dsimp only
  split
  · rename_i hnone
    exfalso
    have hx : (chainFrom [B] (List.drop A.length (List.drop iA s))).isSome = true := by
      apply chainFrom_single_isSome
      refine ⟨iB - (iA + A.length), ?_⟩
      rw [List.drop_drop]
      apply occAt_drop
      have e : iA + A.length + (iB - (iA + A.length)) = iB := by omega
      rwa [e]
    rw [hnone] at hx
    cases hx
  · rfl

theorem chain3_isSome_of_occ {A B D s : List Char} {iA iB iD : Nat}
    (hA : occAt A s iA = true) (hB : occAt B s iB = true)
    (hD : occAt D s iD = true)
    (hg1 : iA + A.length ≤ iB) (hg2 : iB + B.length ≤ iD) :
    (scan (tryChain A [B, D]) s).isSome = true := by
  apply scan_isSome_of (i := iA)
  rw [tryChain]
  have hA' : isPrefixB A (List.drop iA s) = true := hA
  rw [tryLit, if_pos hA']
  dsimp only
  split
  · rename_i hnone
    exfalso
    have hx : (chainFrom [B, D] (List.drop A.length (List.drop iA s))).isSome = true := by
      apply chainFrom_pair_isSome
      refine ⟨iB - (iA + A.length), iD - (iA + A.length), ?_, ?_, by omega⟩
      · rw [List.drop_drop]
        apply occAt_drop
        have e : iA + A.length + (iB - (iA + A.length)) = iB := by omega
        rwa [e]
      · rw [List.drop_drop]
        apply occAt_drop
        have e : iA + A.length + (iD - (iA + A.length)) = iD := by omega
        rwa [e]
    rw [hnone] at hx
    cases hx
  · rfl

theorem chain2_occ_of_isSome {A B s : List Char}
    (h : (scan (tryChain A [B]) s).isSome = true) :
    ∃ iA iB, occAt A s iA = true ∧ occAt B s iB = true ∧ iA + A.length ≤ iB := by
  cases hsc : scan (tryChain A [B]) s with
  | none => rw [hsc] at h; cases h
  | some y =>
    obtain ⟨a, m, rest⟩ := y
    obtain ⟨r0, hr0, ht⟩ := scan_eq_some hsc
    obtain ⟨hr0m, mid, hm⟩ := tryChain_single_shape ht
    have hs : s = a ++ (A ++ (mid ++ (B ++ rest))) := by
      rw [hr0, hr0m, hm]
      simp [List.append_assoc]
    refine ⟨a.length, a.length + A.length + mid.length, ?_, ?_, by omega⟩
    · rw [hs]
      exact occAt_mid a A _
    · have e1 : s = (a ++ A ++ mid) ++ (B ++ rest) := by
        rw [hs]; simp [List.append_assoc]
      have h2 := occAt_mid (a ++ A ++ mid) B rest
      rw [← e1] at h2
      have e2 : (a ++ A ++ mid).length = a.length + A.length + mid.length := by
        simp only [List.length_append]
      rwa [e2] at h2

theorem chain3_occ_of_isSome {A B D s : List Char}
    (h : (scan (tryChain A [B, D]) s).isSome = true) :
    ∃ iA iB iD, occAt A s iA = true ∧ occAt B s iB = true ∧
      occAt D s iD = true ∧ iA + A.length ≤ iB ∧ iB + B.length ≤ iD := by
  cases hsc : scan (tryChain A [B, D]) s with
  | none => rw [hsc] at h; cases h
  | some y =>
    obtain ⟨a, m, rest⟩ := y
    obtain ⟨r0, hr0, ht⟩ := scan_eq_some hsc
    obtain ⟨hr0m, m1, m2, hm⟩ := tryChain_pair_shape ht
    have hs : s = a ++ (A ++ (m1 ++ (B ++ (m2 ++ (D ++ rest))))) := by
      rw [hr0, hr0m, hm]
      simp [List.append_assoc]
    refine ⟨a.length, a.length + A.length + m1.length,
      a.length + A.length + m1.length + B.length + m2.length, ?_, ?_, ?_,
      by omega, by omega⟩
    · rw [hs]
      exact occAt_mid a A _
    · have e1 : s = (a ++ A ++ m1) ++ (B ++ (m2 ++ (D ++ rest))) := by
        rw [hs]; simp [List.append_assoc]
      have h2 := occAt_mid (a ++ A ++ m1) B (m2 ++ (D ++ rest))
      rw [← e1] at h2
      have e2 : (a ++ A ++ m1).length = a.length + A.length + m1.length := by
        simp only [List.length_append]
      rwa [e2] at h2
    · have e1 : s = (a ++ A ++ m1 ++ B ++ m2) ++ (D ++ rest) := by
        rw [hs]; simp [List.append_assoc]
      have h2 := occAt_mid (a ++ A ++ m1 ++ B ++ m2) D rest
      rw [← e1] at h2
      have e2 : (a ++ A ++ m1 ++ B ++ m2).length =
          a.length + A.length + m1.length + B.length + m2.length := by
        simp only [List.length_append]
      rwa [e2] at h2

theorem chain2_isSome_insert_bwd {A B x C y : List Char}
    (hA : A ≠ []) (hB : B ≠ [])
    (hC0A : countOcc A C = 0) (hClA : rightBlocksB A C = true)
    (hCrA : leftBlocksB A C = true)
    (hC0B : countOcc B C = 0) (hClB : rightBlocksB B C = true)
    (hCrB : leftBlocksB B C = true)
    (h : (scan (tryChain A [B]) (x ++ C ++ y)).isSome = true) :
    (scan (tryChain A [B]) (x ++ y)).isSome = true := by
  have hAl : 0 < A.length := List.length_pos.mpr hA
  have hBl : 0 < B.length := List.length_pos.mpr hB
  obtain ⟨jA, jB, hoA, hoB, hg⟩ := chain2_occ_of_isSome h
  rcases occAt_insert_bwd hA hC0A hClA hCrA hoA with ⟨h1, hsA⟩ | ⟨h1, hsA⟩ <;>
    rcases occAt_insert_bwd hB hC0B hClB hCrB hoB with ⟨h2, hsB⟩ | ⟨h2, hsB⟩ <;>
    exact chain2_isSome_of_occ hsA hsB (by omega)

theorem chain3_isSome_insert_fwd {A B D x x' L C y : List Char}
    (hA : A ≠ []) (hB : B ≠ []) (hD : D ≠ [])
    (hxL : x = x' ++ L)
    (hLA : leftBlocksB A L = true) (hLB : leftBlocksB B L = true)
    (hLD : leftBlocksB D L = true)
    (h : (scan (tryChain A [B, D]) (x ++ y)).isSome = true) :
    (scan (tryChain A [B, D]) (x ++ C ++ y)).isSome = true := by
  have hAl : 0 < A.length := List.length_pos.mpr hA
  have hBl : 0 < B.length := List.length_pos.mpr hB
  have hDl : 0 < D.length := List.length_pos.mpr hD
  obtain ⟨iA, iB, iD, hoA, hoB, hoD, hg1, hg2⟩ := chain3_occ_of_isSome h
  rcases occAt_insert_fwd (C := C) hxL hLA hoA with ⟨h1, hsA⟩ | ⟨h1, hsA⟩ <;>
    rcases occAt_insert_fwd (C := C) hxL hLB hoB with ⟨h2, hsB⟩ | ⟨h2, hsB⟩ <;>
    rcases occAt_insert_fwd (C := C) hxL hLD hoD with ⟨h3, hsD⟩ | ⟨h3, hsD⟩ <;>
    exact chain3_isSome_of_occ hsA hsB hsD (by omega) (by omega)

theorem all_takeWhile {p : Char → Bool} {l : List Char} :
    (l.takeWhile p).all p = true := by
  induction l with
  | nil => rfl
  | cons c t ih =>
    rw [List.takeWhile_cons]
    split
    · rename_i hc
      simp only [List.all_cons, hc, Bool.true_and]
      exact ih
    · rfl

theorem remixAlt_occ_of_isSome {s : List Char}
    (h : (scan tryAlternativeRemix s).isSome = true) :
    ∃ iA iB iC iD,
      occAt removeAllListenersLit s iA = true ∧
      occAt pointerdownLit s iB = true ∧
      occAt startGameLit s iC = true ∧
      occAt closeBraceParenLit s iD = true ∧
      iA + removeAllListenersLit.length ≤ iB ∧
      iB + pointerdownLit.length ≤ iC ∧
      iC + startGameLit.length ≤ iD ∧
      ((s.drop (iA + removeAllListenersLit.length)).take
        (iB - (iA + removeAllListenersLit.length))).all isWs = true := by
  cases hsc : scan tryAlternativeRemix s with
  | none => rw [hsc] at h; cases h
  | some y =>
    obtain ⟨a, m, rest0⟩ := y
    obtain ⟨r0, hr0, ht⟩ := scan_eq_some hsc
    simp only [tryAlternativeRemix] at ht
    split at ht
    · split at ht
      · split at ht
        · cases ht
        · rename_i hpA hpd _ b rest' hcf
          simp only [Option.some.injEq, Prod.mk.injEq] at ht
          obtain ⟨rfl, rfl⟩ := ht
          obtain ⟨a1, a2, rfl⟩ := chainFrom_pair_shape hcf
          have hsound := chainFrom_eq_some hcf
          have hr : r0 = removeAllListenersLit ++
              (r0.drop removeAllListenersLit.length) :=
            (List.prefix_iff_eq_append.mp (isPrefixB_iff.mp hpA)).symm
          have hw := (List.takeWhile_append_dropWhile isWs
            (r0.drop removeAllListenersLit.length)).symm
          have hp : (r0.drop removeAllListenersLit.length).dropWhile isWs =
              pointerdownLit ++ ((r0.drop removeAllListenersLit.length).dropWhile
                isWs |>.drop pointerdownLit.length) :=
            (List.prefix_iff_eq_append.mp (isPrefixB_iff.mp hpd)).symm
          set w := (r0.drop removeAllListenersLit.length).takeWhile isWs with hwdef
          set tl := (r0.drop removeAllListenersLit.length).dropWhile isWs
            |>.drop pointerdownLit.length with htldef
          have hs : s = a ++ (removeAllListenersLit ++ (w ++ (pointerdownLit ++
              (a1 ++ (startGameLit ++ (a2 ++ (closeBraceParenLit ++ rest'))))))) := by
            rw [hr0]
            conv_lhs => rw [hr]
            rw [hw, hp, hsound]
            simp [List.append_assoc]
          refine ⟨a.length,
            a.length + removeAllListenersLit.length + w.length,
            a.length + removeAllListenersLit.length + w.length +
              pointerdownLit.length + a1.length,
            a.length + removeAllListenersLit.length + w.length +
              pointerdownLit.length + a1.length + startGameLit.length + a2.length,
            ?_, ?_, ?_, ?_, by omega, by omega, by omega, ?_⟩
          · rw [hs]; exact occAt_mid a removeAllListenersLit _
          · have e1 : s = (a ++ removeAllListenersLit ++ w) ++ (pointerdownLit ++
                (a1 ++ (startGameLit ++ (a2 ++ (closeBraceParenLit ++ rest'))))) := by
              rw [hs]; simp [List.append_assoc]
            have h2 := occAt_mid (a ++ removeAllListenersLit ++ w) pointerdownLit
              (a1 ++ (startGameLit ++ (a2 ++ (closeBraceParenLit ++ rest'))))
            rw [← e1] at h2
            rwa [show (a ++ removeAllListenersLit ++ w).length =
              a.length + removeAllListenersLit.length + w.length from by
                simp only [List.length_append]] at h2
          · have e1 : s = (a ++ removeAllListenersLit ++ w ++ pointerdownLit ++ a1)
                ++ (startGameLit ++ (a2 ++ (closeBraceParenLit ++ rest'))) := by
              rw [hs]; simp [List.append_assoc]
            have h2 := occAt_mid (a ++ removeAllListenersLit ++ w ++
              pointerdownLit ++ a1) startGameLit
              (a2 ++ (closeBraceParenLit ++ rest'))
            rw [← e1] at h2
            rwa [show (a ++ removeAllListenersLit ++ w ++ pointerdownLit ++
              a1).length = a.length + removeAllListenersLit.length + w.length +
                pointerdownLit.length + a1.length from by
                simp only [List.length_append]] at h2
          · have e1 : s = (a ++ removeAllListenersLit ++ w ++ pointerdownLit ++
                a1 ++ startGameLit ++ a2) ++ (closeBraceParenLit ++ rest') := by
              rw [hs]; simp [List.append_assoc]
            have h2 := occAt_mid (a ++ removeAllListenersLit ++ w ++
              pointerdownLit ++ a1 ++ startGameLit ++ a2) closeBraceParenLit rest'
            rw [← e1] at h2
            rwa [show (a ++ removeAllListenersLit ++ w ++ pointerdownLit ++ a1 ++
              startGameLit ++ a2).length = a.length +
                removeAllListenersLit.length + w.length + pointerdownLit.length +
                a1.length + startGameLit.length + a2.length from by
                simp only [List.length_append]] at h2
          · have e1 : s = (a ++ removeAllListenersLit) ++ (w ++ (pointerdownLit ++
                (a1 ++ (startGameLit ++ (a2 ++ (closeBraceParenLit ++ rest')))))) := by
              rw [hs]; simp [List.append_assoc]
            have e2 : s.drop (a.length + removeAllListenersLit.length) =
                w ++ (pointerdownLit ++ (a1 ++ (startGameLit ++
                  (a2 ++ (closeBraceParenLit ++ rest'))))) := by
              rw [e1, List.drop_left' (by simp only [List.length_append])]
            have e3 : a.length + removeAllListenersLit.length + w.length -
                (a.length + removeAllListenersLit.length) = w.length := by omega
            rw [e3, e2, List.take_left]
            exact all_takeWhile
      · cases ht
    · cases ht

theorem head?_of_cons_start {c : Char} {l r : List Char}
    (h : (c :: l) <+: r) : r.head? = some c := by
  obtain ⟨t, rfl⟩ := h
  rfl

theorem remixAlt_isSome_of_occ {s : List Char} {iA iB iC iD : Nat}
    (hA : occAt removeAllListenersLit s iA = true)
    (hB : occAt pointerdownLit s iB = true)
    (hC : occAt startGameLit s iC = true)
    (hD : occAt closeBraceParenLit s iD = true)
    (g1 : iA + removeAllListenersLit.length ≤ iB)
    (g2 : iB + pointerdownLit.length ≤ iC)
    (g3 : iC + startGameLit.length ≤ iD)
    (hws : ((s.drop (iA + removeAllListenersLit.length)).take
      (iB - (iA + removeAllListenersLit.length))).all isWs = true) :
    (scan tryAlternativeRemix s).isSome = true := by
  apply scan_isSome_of (i := iA)
  simp only [tryAlternativeRemix]
  have hA' : isPrefixB removeAllListenersLit (List.drop iA s) = true := hA
  rw [if_pos hA']
  have hr : List.drop removeAllListenersLit.length (List.drop iA s) =
      s.drop (iA + removeAllListenersLit.length) := by
    rw [List.drop_drop]
  have hsplit : s.drop (iA + removeAllListenersLit.length) =
      (s.drop (iA + removeAllListenersLit.length)).take
        (iB - (iA + removeAllListenersLit.length)) ++ s.drop iB := by
    conv_lhs => rw [← List.take_append_drop
      (iB - (iA + removeAllListenersLit.length))
      (s.drop (iA + removeAllListenersLit.length))]
    rw [List.drop_drop]
    have e : iA + removeAllListenersLit.length +
        (iB - (iA + removeAllListenersLit.length)) = iB := by omega
    rw [e]
  have hhead : ∀ c, (s.drop iB).head? = some c → isWs c = false := by
    intro c hc
    have hp : pointerdownLit <+: s.drop iB := isPrefixB_iff.mp hB
    have hcons : pointerdownLit =
        't' :: ("his.playButton.on(\x27pointerdown\x27, () => \x7b").toList := by
      rfl
    rw [hcons] at hp
    rw [head?_of_cons_start hp] at hc
    cases hc
    rfl
  obtain ⟨htw, hdw⟩ := takeWhile_append_of_all
    (List.all_eq_true.mp hws) hhead
  rw [hr]
  conv_lhs =>
    rw [show List.dropWhile isWs (s.drop (iA + removeAllListenersLit.length)) =
      s.drop iB from by rw [hsplit, hdw]]
  rw [if_pos (show isPrefixB pointerdownLit (s.drop iB) = true from hB)]
  split
  · rename_i hnone
    exfalso
    have hx : (chainFrom [startGameLit, closeBraceParenLit]
        (List.drop pointerdownLit.length (s.drop iB))).isSome = true := by
      apply chainFrom_pair_isSome
      refine ⟨iC - (iB + pointerdownLit.length),
        iD - (iB + pointerdownLit.length), ?_, ?_, by omega⟩
      · rw [List.drop_drop]
        apply occAt_drop
        have e : iB + pointerdownLit.length +
            (iC - (iB + pointerdownLit.length)) = iC := by omega
        rwa [e]
      · rw [List.drop_drop]
        apply occAt_drop
        have e : iB + pointerdownLit.length +
            (iD - (iB + pointerdownLit.length)) = iD := by omega
        rwa [e]
    rw [hnone] at hx
    cases hx
  · rfl

theorem remixPrimary_occ_of_isSome {s : List Char}
    (h : (scan tryGameOverRemix s).isSome = true) :
    ∃ iA k iB,
      occAt setPositionLit s iA = true ∧
      occAt ([')', ';']) s k = true ∧
      occAt setInteractiveLit s iB = true ∧
      iA + setPositionLit.length < k ∧
      ((s.drop (iA + setPositionLit.length)).take
        (k - (iA + setPositionLit.length))).all (fun c => c != ')') = true ∧
      k + 2 ≤ iB ∧
      ((s.drop (k + 2)).take (iB - (k + 2))).all isWs = true := by
  cases hsc : scan tryGameOverRemix s with
  | none => rw [hsc] at h; cases h
  | some y =>
    obtain ⟨a, m, rest0⟩ := y
    obtain ⟨r0, hr0, ht⟩ := scan_eq_some hsc
    simp only [tryGameOverRemix] at ht
    split at ht
    · split at ht
      · cases ht
      · split at ht
        · split at ht
          · rename_i hpA hbody hpr hint
            simp only [Option.some.injEq, Prod.mk.injEq] at ht
            obtain ⟨rfl, rfl⟩ := ht
            set body := (r0.drop setPositionLit.length).takeWhile
              (fun c => c != ')') with hbodydef
            set w := ((r0.drop setPositionLit.length).dropWhile
              (fun c => c != ')')).drop 2 |>.takeWhile isWs with hwdef
            have hr : r0 = setPositionLit ++ (r0.drop setPositionLit.length) :=
              (List.prefix_iff_eq_append.mp (isPrefixB_iff.mp hpA)).symm
            have hw1 := (List.takeWhile_append_dropWhile (fun c => c != ')')
              (r0.drop setPositionLit.length)).symm
            have hw2 : (r0.drop setPositionLit.length).dropWhile
                (fun c => c != ')') = [')', ';'] ++
                  ((r0.drop setPositionLit.length).dropWhile
                    (fun c => c != ')')).drop 2 :=
              (List.prefix_iff_eq_append.mp (isPrefixB_iff.mp hpr)).symm
            have hw3 := (List.takeWhile_append_dropWhile isWs
              (((r0.drop setPositionLit.length).dropWhile
                (fun c => c != ')')).drop 2)).symm
            have hw4 : (((r0.drop setPositionLit.length).dropWhile
                (fun c => c != ')')).drop 2).dropWhile isWs =
                setInteractiveLit ++
                  ((((r0.drop setPositionLit.length).dropWhile
                    (fun c => c != ')')).drop 2).dropWhile isWs).drop
                      setInteractiveLit.length :=
              (List.prefix_iff_eq_append.mp (isPrefixB_iff.mp hint)).symm
            set tail := ((((r0.drop setPositionLit.length).dropWhile
              (fun c => c != ')')).drop 2).dropWhile isWs).drop
                setInteractiveLit.length with htaildef
            have hs : s = a ++ (setPositionLit ++ (body ++ ([')', ';'] ++
                (w ++ (setInteractiveLit ++ tail))))) := by
              rw [hr0]
              conv_lhs => rw [hr]
              rw [hw1, hw2, hw3, hw4]
            refine ⟨a.length, a.length + setPositionLit.length + body.length,
              a.length + setPositionLit.length + body.length + 2 + w.length,
              ?_, ?_, ?_, ?_, ?_, by omega, ?_⟩
            · rw [hs]; exact occAt_mid a setPositionLit _
            · have e1 : s = (a ++ setPositionLit ++ body) ++ ([')', ';'] ++
                  (w ++ (setInteractiveLit ++ tail))) := by
                rw [hs]; simp [List.append_assoc]
              have h2 := occAt_mid (a ++ setPositionLit ++ body) ([')', ';'])
                (w ++ (setInteractiveLit ++ tail))
              rw [← e1] at h2
              rwa [show (a ++ setPositionLit ++ body).length =
                a.length + setPositionLit.length + body.length from by
                  simp only [List.length_append]] at h2
            · have e1 : s = (a ++ setPositionLit ++ body ++ [')', ';'] ++ w) ++
                  (setInteractiveLit ++ tail) := by
                rw [hs]; simp [List.append_assoc]
              have h2 := occAt_mid (a ++ setPositionLit ++ body ++ [')', ';'] ++ w)
                setInteractiveLit tail
              rw [← e1] at h2
              rwa [show (a ++ setPositionLit ++ body ++ [')', ';'] ++ w).length =
                a.length + setPositionLit.length + body.length + 2 + w.length
                from by simp only [List.length_append]; rfl] at h2
            · have hbne : body ≠ [] := by
                intro hc
                exact hbody (List.isEmpty_iff.mpr hc)
              have : 0 < body.length := List.length_pos.mpr hbne
              omega
            · have e1 : s = (a ++ setPositionLit) ++ (body ++ ([')', ';'] ++
                  (w ++ (setInteractiveLit ++ tail)))) := by
                rw [hs]; simp [List.append_assoc]
              have e2 : s.drop (a.length + setPositionLit.length) =
                  body ++ ([')', ';'] ++ (w ++ (setInteractiveLit ++ tail))) := by
                rw [e1, List.drop_left' (by simp only [List.length_append])]
              have e3 : a.length + setPositionLit.length + body.length -
                  (a.length + setPositionLit.length) = body.length := by omega
              rw [e3, e2, List.take_left]
              exact all_takeWhile
            · have e1 : s = (a ++ setPositionLit ++ body ++ [')', ';']) ++
                  (w ++ (setInteractiveLit ++ tail)) := by
                rw [hs]; simp [List.append_assoc]
              have e2 : s.drop (a.length + setPositionLit.length + body.length + 2) =
                  w ++ (setInteractiveLit ++ tail) := by
                rw [e1, List.drop_left' (by simp only [List.length_append]; rfl)]
              have e3 : a.length + setPositionLit.length + body.length + 2 +
                  w.length - (a.length + setPositionLit.length + body.length + 2) =
                  w.length := by omega
              rw [e3, e2, List.take_left]
              exact all_takeWhile
          · cases ht
        · cases ht
    · cases ht

theorem remixPrimary_isSome_of_occ {s : List Char} {iA k iB : Nat}
    (hA : occAt setPositionLit s iA = true)
    (hK : occAt ([')', ';']) s k = true)
    (hB : occAt setInteractiveLit s iB = true)
    (g1 : iA + setPositionLit.length < k)
    (hg1 : ((s.drop (iA + setPositionLit.length)).take
      (k - (iA + setPositionLit.length))).all (fun c => c != ')') = true)
    (g2 : k + 2 ≤ iB)
    (hg2 : ((s.drop (k + 2)).take (iB - (k + 2))).all isWs = true) :
    (scan tryGameOverRemix s).isSome = true := by
  have hklen : k + 2 ≤ s.length := by
    have hp : ([')', ';'] : List Char) <+: s.drop k := isPrefixB_iff.mp hK
    have := hp.length_le
    simp at this
    omega
  apply scan_isSome_of (i := iA)
  simp only [tryGameOverRemix]
  have hA' : isPrefixB setPositionLit (List.drop iA s) = true := hA
  rw [if_pos hA']
  rw [List.drop_drop]
  have hsplit1 : s.drop (iA + setPositionLit.length) =
      (s.drop (iA + setPositionLit.length)).take
        (k - (iA + setPositionLit.length)) ++ s.drop k := by
    conv_lhs => rw [← List.take_append_drop
      (k - (iA + setPositionLit.length)) (s.drop (iA + setPositionLit.length))]
    rw [List.drop_drop]
    have e : iA + setPositionLit.length + (k - (iA + setPositionLit.length)) =
        k := by omega
    rw [e]
  have hheadk : ∀ c, (s.drop k).head? = some c → (c != ')') = false := by
    intro c hc
    have hp : ([')', ';'] : List Char) <+: s.drop k := isPrefixB_iff.mp hK
    rw [head?_of_cons_start hp] at hc
    cases hc
    rfl
  obtain ⟨htw1, hdw1⟩ := takeWhile_append_of_all
    (List.all_eq_true.mp hg1) hheadk
  conv_lhs =>
    rw [show List.takeWhile (fun c => c != ')')
        (s.drop (iA + setPositionLit.length)) =
      (s.drop (iA + setPositionLit.length)).take
        (k - (iA + setPositionLit.length)) from by
      conv_lhs => rw [hsplit1]
      rw [htw1]]
    rw [show List.dropWhile (fun c => c != ')')
        (s.drop (iA + setPositionLit.length)) = s.drop k from by
      conv_lhs => rw [hsplit1]
      rw [hdw1]]
  have hbne : ((s.drop (iA + setPositionLit.length)).take
      (k - (iA + setPositionLit.length))).isEmpty = false := by
    rw [List.isEmpty_eq_false_iff_exists_mem]
    have hlen : ((s.drop (iA + setPositionLit.length)).take
        (k - (iA + setPositionLit.length))).length =
        min (k - (iA + setPositionLit.length))
          (s.length - (iA + setPositionLit.length)) := by
      rw [List.length_take, List.length_drop]
    have hpos : 0 < ((s.drop (iA + setPositionLit.length)).take
        (k - (iA + setPositionLit.length))).length := by
      rw [hlen]
      omega
    exact List.exists_mem_of_length_pos hpos
  rw [if_neg (by rw [hbne]; exact fun hc => Bool.false_ne_true hc)]
  rw [if_pos (show isPrefixB ([')', ';']) (s.drop k) = true from hK)]
  rw [List.drop_drop]
  have hsplit2 : s.drop (k + 2) =
      (s.drop (k + 2)).take (iB - (k + 2)) ++ s.drop iB := by
    conv_lhs => rw [← List.take_append_drop (iB - (k + 2)) (s.drop (k + 2))]
    rw [List.drop_drop]
    have e : k + 2 + (iB - (k + 2)) = iB := by omega
    rw [e]
  have hheadB : ∀ c, (s.drop iB).head? = some c → isWs c = false := by
    intro c hc
    have hp : setInteractiveLit <+: s.drop iB := isPrefixB_iff.mp hB
    have hcons : setInteractiveLit =
        't' :: ("his.playButton.setInteractive();").toList := by rfl
    rw [hcons] at hp
    rw [head?_of_cons_start hp] at hc
    cases hc
    rfl
  obtain ⟨htw2, hdw2⟩ := takeWhile_append_of_all
    (List.all_eq_true.mp hg2) hheadB
  conv_lhs =>
    rw [show List.dropWhile isWs (s.drop (k + 2)) = s.drop iB from by
      rw [hsplit2, hdw2]]
  rw [if_pos (show isPrefixB setInteractiveLit (s.drop iB) = true from hB)]
  rfl

/-! ### Segment extraction helpers for the greedy-gap conditions -/

theorem seg_left {x y : List Char} {p q : Nat} (h : p + q ≤ x.length) :
    ((x ++ y).drop p).take q = (x.drop p).take q := by
  rw [List.drop_append_of_le_length (by omega)]
  rw [List.take_append_of_le_length (by simp; omega)]

theorem seg_right {x y : List Char} {p : Nat} (h : x.length ≤ p) :
    (x ++ y).drop p = y.drop (p - x.length) := by
  have e : p = x.length + (p - x.length) := by omega
  conv_lhs => rw [e]
  rw [List.drop_append]

theorem take_prefix_take {l : List Char} {m n : Nat} (h : m ≤ n) :
    l.take m <+: l.take n := by
  rw [show l.take m = (l.take n).take m from by
    rw [List.take_take, Nat.min_eq_left h]]
  exact List.take_prefix m (l.take n)

theorem seg_sub_all {s : List Char} {f : Char → Bool} {p q p' q' : Nat}
    (hall : ((s.drop p).take q).all f = true)
    (h1 : p ≤ p') (h2 : p' + q' ≤ p + q) :
    ((s.drop p').take q').all f = true := by
  rw [List.all_eq_true] at hall ⊢
  intro c hc
  apply hall
  have e1 : s.drop p' = (s.drop p).drop (p' - p) := by
    rw [List.drop_drop]
    congr 1
    omega
  rw [e1] at hc
  have e2 : ((s.drop p).drop (p' - p)).take q' =
      (((s.drop p).take q).drop (p' - p)).take q' := by
    rw [List.drop_take, List.take_take, Nat.min_eq_left (by omega)]
  rw [e2] at hc
  exact List.mem_of_mem_drop (List.mem_of_mem_take hc)

theorem occAt_cons_head {a : Char} {l s : List Char} {j : Nat}
    (h : occAt (a :: l) s j = true) : (s.drop j).head? = some a := by
  have hp : (a :: l) <+: s.drop j := isPrefixB_iff.mp h
  exact head?_of_cons_start hp

theorem suffix_singleton {z w : List Char} {c : Char} (h : z <:+ w ++ [c]) :
    z = [] ∨ ∃ z', z = z' ++ [c] := by
  rcases List.eq_nil_or_concat z with rfl | ⟨z', d, rfl⟩
  · left; rfl
  · right
    simp only [List.concat_eq_append] at h ⊢
    obtain ⟨t, ht⟩ := h
    have h1 : (t ++ (z' ++ [d])).getLast? = some d := by
      rw [← List.append_assoc]
      exact List.getLast?_concat _
    have h2 : (w ++ [c]).getLast? = some c := List.getLast?_concat _
    rw [ht, h2] at h1
    cases h1
    exact ⟨z', rfl⟩

theorem all_tail_refute {x y : List Char} {f : Char → Bool} {p q : Nat}
    {x0 : List Char} {c : Char}
    (hx : x = x0 ++ [c]) (hc : f c = false)
    (hp : p < x.length) (hq : x.length ≤ p + q)
    (hall : (((x ++ y).drop p).take q).all f = true) : False := by
  have hseg : ((x ++ y).drop p).take (x.length - p) = x.drop p :=
    by
      rw [seg_left (by omega)]
      rw [List.take_of_length_le (by simp)]
  have hsub : ((x ++ y).drop p).take (x.length - p) <+:
      ((x ++ y).drop p).take q := take_prefix_take (by omega)
  rw [hseg] at hsub
  have hall2 : (x.drop p).all f = true := by
    rw [List.all_eq_true] at hall ⊢
    intro d hd
    exact hall d (hsub.subset hd)
  have hsuf : x.drop p <:+ x0 ++ [c] := by
    rw [← hx]
    exact List.drop_suffix p x
  rcases suffix_singleton hsuf with hnil | ⟨z', hz⟩
  · have : x.length - p = 0 := by
      have := congrArg List.length hnil
      simpa using this
    omega
  · rw [List.all_eq_true] at hall2
    have : f c = true := hall2 c (by rw [hz]; simp)
    rw [hc] at this
    cases this

theorem occ_end_boundary {A x y : List Char} {i : Nat}
    (hocc : occAt A (x ++ y) i = true) (hend : i + A.length = x.length) :
    A <:+ x := by
  have hp : A <+: (x ++ y).drop i := occAt_iff.mp hocc
  rw [List.drop_append_of_le_length (by omega)] at hp
  have hp2 : A <+: x.drop i := (prefix_append_le (by simp; omega)).mp hp
  have he : A = x.drop i := hp2.eq_of_length (by simp; omega)
  rw [he]
  exact List.drop_suffix i x

theorem remixAlt_isSome_ready_fwd {x x' y : List Char}
    (hxL : x = x' ++ showTitleLitB)
    (h : (scan tryAlternativeRemix (x ++ y)).isSome = true) :
    (scan tryAlternativeRemix (x ++ readyBlock ++ y)).isSome = true := by
  obtain ⟨iA, iB, iC, iD, hA, hB, hC, hD, g1, g2, g3, hws⟩ :=
    remixAlt_occ_of_isSome h
  have hralp : 0 < removeAllListenersLit.length := by decide
  have hpdlp : 0 < pointerdownLit.length := by decide
  have hsgp : 0 < startGameLit.length := by decide
  have hcbpp : 0 < closeBraceParenLit.length := by decide
  have easc : x ++ readyBlock ++ y = x ++ (readyBlock ++ y) := by
    simp [List.append_assoc]
  rcases occAt_insert_fwd (C := readyBlock) hxL (by decide) hA with
    ⟨a1, hA'⟩ | ⟨a1, hA'⟩ <;>
    rcases occAt_insert_fwd (C := readyBlock) hxL (by decide) hB with
      ⟨b1, hB'⟩ | ⟨b1, hB'⟩
  · -- A left, B left
    have hxlen : iB ≤ x.length := by omega
    have hws' : (((x ++ readyBlock ++ y).drop
        (iA + removeAllListenersLit.length)).take
        (iB - (iA + removeAllListenersLit.length))).all isWs = true := by
      rw [easc, seg_left (by omega)]
      rw [seg_left (by omega)] at hws
      exact hws
    rcases occAt_insert_fwd (C := readyBlock) hxL (by decide) hC with
      ⟨c1, hC'⟩ | ⟨c1, hC'⟩ <;>
      rcases occAt_insert_fwd (C := readyBlock) hxL (by decide) hD with
        ⟨d1, hD'⟩ | ⟨d1, hD'⟩ <;>
      exact remixAlt_isSome_of_occ hA' hB' hC' hD'
        (by omega) (by omega) (by omega) hws'
  · -- A left, B right: impossible
    exfalso
    rcases Nat.lt_or_ge (iA + removeAllListenersLit.length) x.length with
      hlt | hge
    · have hstl : showTitleLitB =
          ("this.gameElements.forEach(element => element.setVisible(false))").toList
            ++ [';'] := by rfl
      have hxc : x = (x' ++
          ("this.gameElements.forEach(element => element.setVisible(false))").toList)
            ++ [';'] := by
        rw [hxL, hstl, ← List.append_assoc]
      exact all_tail_refute hxc rfl hlt (by omega) hws
    · have heq : iA + removeAllListenersLit.length = x.length := by omega
      have hsuf : removeAllListenersLit <:+ x := occ_end_boundary hA heq
      rw [hxL] at hsuf
      have h2 : removeAllListenersLit <:+ showTitleLitB :=
        (suffix_append_le (by decide)).mp hsuf
      exact absurd (isSuffixB_iff.mpr h2) (by decide)
  · -- A right, B left: impossible
    exfalso
    omega
  · -- A right, B right
    have hws' : (((x ++ readyBlock ++ y).drop
        (iA + readyBlock.length + removeAllListenersLit.length)).take
        (iB + readyBlock.length -
          (iA + readyBlock.length + removeAllListenersLit.length))).all
            isWs = true := by
      have e1 : iA + readyBlock.length + removeAllListenersLit.length =
          iA + removeAllListenersLit.length + readyBlock.length := by omega
      have e2 : iB + readyBlock.length -
          (iA + readyBlock.length + removeAllListenersLit.length) =
          iB - (iA + removeAllListenersLit.length) := by omega
      rw [e2, e1]
      have e3 : (x ++ readyBlock ++ y).drop
          (iA + removeAllListenersLit.length + readyBlock.length) =
          y.drop (iA + removeAllListenersLit.length - x.length) := by
        rw [seg_right (by simp only [List.length_append]; omega)]
        congr 1
        simp only [List.length_append]
        omega
      have e4 : (x ++ y).drop (iA + removeAllListenersLit.length) =
          y.drop (iA + removeAllListenersLit.length - x.length) := by
        rw [seg_right (by omega)]
      rw [e3]
      rw [e4] at hws
      exact hws
    rcases occAt_insert_fwd (C := readyBlock) hxL (by decide) hC with
      ⟨c1, hC'⟩ | ⟨c1, hC'⟩ <;>
      rcases occAt_insert_fwd (C := readyBlock) hxL (by decide) hD with
        ⟨d1, hD'⟩ | ⟨d1, hD'⟩ <;>
      exact remixAlt_isSome_of_occ hA' hB' hC' hD'
        (by omega) (by omega) (by omega) hws'

theorem gapBlocks_refute {g : Char → Bool} {pat c : List Char}
    (hfact : gapBlocksB g pat c = true) {t : Nat} (ht : t ≤ c.length)
    (h1 : (c.take t).all g = true) (h2 : occAt pat c t = true) : False := by
  rw [gapBlocksB, List.all_eq_true] at hfact
  have h3 := hfact t (List.mem_range.mpr (by omega))
  rw [h1] at h3
  rw [occAt] at h2
  rw [h2] at h3
  cases h3

theorem occAt_insert_cases {lit x C y : List Char} {j : Nat}
    (hocc : occAt lit (x ++ C ++ y) j = true) :
    (j + lit.length ≤ x.length ∧ occAt lit (x ++ y) j = true) ∨
    (x.length + C.length ≤ j ∧ occAt lit (x ++ y) (j - C.length) = true) ∨
    (j < x.length + C.length ∧ x.length < j + lit.length) := by
  by_cases h1 : j + lit.length ≤ x.length
  · left
    refine ⟨h1, ?_⟩
    have e : x ++ C ++ y = x ++ (C ++ y) := by simp [List.append_assoc]
    rw [e] at hocc
    have := (occAt_left_iff h1).mp hocc
    exact occAt_mono_append this
  · by_cases h2 : x.length + C.length ≤ j
    · right; left
      refine ⟨h2, ?_⟩
      have h3 : (x ++ C).length ≤ j := by simp only [List.length_append]; omega
      have hy := (occAt_right_iff h3).mp hocc
      have e : j - (x ++ C).length = j - C.length - x.length := by
        simp only [List.length_append]; omega
      rw [e] at hy
      have := occAt_shift (a := x) hy
      have e2 : x.length + (j - C.length - x.length) = j - C.length := by omega
      rwa [e2] at this
    · right; right
      omega


theorem remixPrimary_isSome_ready_bwd {x x' y : List Char}
    (hxL : x = x' ++ showTitleLitB)
    (h : (scan tryGameOverRemix (x ++ readyBlock ++ y)).isSome = true) :
    (scan tryGameOverRemix (x ++ y)).isSome = true := by
  obtain ⟨jA, k, jB, hA, hK, hB, g1, hg1, g2, hg2⟩ := remixPrimary_occ_of_isSome h
  have hsplp : 0 < setPositionLit.length := by decide
  have hsilp : 0 < setInteractiveLit.length := by decide
  have hlit2 : ([')', ';'] : List Char).length = 2 := rfl
  have hxlen : showTitleLitB.length ≤ x.length := by
    rw [hxL]; simp only [List.length_append]; omega
  have hxpos : 0 < x.length := by
    have hstl : 0 < showTitleLitB.length := by decide
    omega
  have easc : x ++ readyBlock ++ y = x ++ (readyBlock ++ y) := by
    simp [List.append_assoc]
  have hdropx : (x ++ readyBlock ++ y).drop x.length = readyBlock ++ y := by
    rw [easc, List.drop_left]
  have hCb : readyBlock = ("\n\n                // Farcade SDK: Signal that the game is fully loaded and ready to play\n                if (window.FarcadeSDK) \x7b\n                    window.FarcadeSDK.singlePlayer.actions.ready();\n                    console.log(\x27Farcade SDK: Game ready signal sent.\x27);\n                ").toList ++ ['\x7d'] := by rfl
  have hlCb := congrArg List.length hCb
  simp only [List.length_append, List.length_cons, List.length_nil] at hlCb
  have hxc : x = (x' ++
      ("this.gameElements.forEach(element => element.setVisible(false))").toList)
        ++ [';'] := by
    rw [hxL, show showTitleLitB =
      ("this.gameElements.forEach(element => element.setVisible(false))").toList
        ++ [';'] from by rfl, ← List.append_assoc]
  have hlxc := congrArg List.length hxc
  simp only [List.length_append, List.length_cons, List.length_nil] at hlxc
  rcases occAt_insert_bwd (by decide) (by decide) (by decide) (by decide) hA with
    ⟨a1, hA'⟩ | ⟨a1, hA'⟩ <;>
    rcases @occAt_insert_cases ([')', ';']) x readyBlock y k hK with
      ⟨k1, hK'⟩ | ⟨k1, hK'⟩ | ⟨k1, k2⟩ <;>
    rcases occAt_insert_bwd (by decide) (by decide) (by decide) (by decide) hB with
      ⟨b1, hB'⟩ | ⟨b1, hB'⟩
  · -- all three occurrences left of the inserted block
    have hg1' : (((x ++ y).drop (jA + setPositionLit.length)).take
        (k - (jA + setPositionLit.length))).all (fun c => c != ')') = true := by
      rw [seg_left (by omega)]
      rw [easc, seg_left (by omega)] at hg1
      exact hg1
    have hg2' : (((x ++ y).drop (k + 2)).take (jB - (k + 2))).all isWs = true := by
      rw [seg_left (by omega)]
      rw [easc, seg_left (by omega)] at hg2
      exact hg2
    exact remixPrimary_isSome_of_occ hA' hK' hB' (by omega) hg1' (by omega) hg2'
  · -- paren-semicolon left, setInteractive right: whitespace gap spans the block
    exfalso
    have hcov := @seg_sub_all _ _ _ _ x.length readyBlock.length hg2
      (by omega) (by omega)
    rw [hdropx, List.take_left] at hcov
    exact absurd hcov (by decide)
  · -- k right of the block, setInteractive left: impossible ordering
    exfalso; omega
  · -- setPosition left, the rest right: paren-free gap spans the block
    exfalso
    have hcov := @seg_sub_all _ _ _ _ x.length readyBlock.length hg1
      (by omega) (by omega)
    rw [hdropx, List.take_left] at hcov
    exact absurd hcov (by decide)
  · -- k intersects the block, setInteractive left: impossible ordering
    exfalso; omega
  · -- k intersects the block region, setInteractive right
    exfalso
    rcases Nat.lt_or_ge k x.length with hkx | hkx
    · -- k straddles the left boundary: the character at k is a semicolon
      have hkeq : k = x.length - 1 := by omega
      have hlen1 : (x' ++
          ("this.gameElements.forEach(element => element.setVisible(false))").toList).length
            = k := by
        simp only [List.length_append]
        omega
      have hdk : (x ++ readyBlock ++ y).drop k = [';'] ++ (readyBlock ++ y) := by
        rw [easc, List.drop_append_of_le_length (by omega)]
        congr 1
        conv_lhs => rw [hxc]
        rw [List.drop_left' hlen1]
      have hhd := occAt_cons_head hK
      rw [hdk] at hhd
      simp only [List.singleton_append, List.head?_cons, Option.some.injEq] at hhd
      exact absurd hhd (by decide)
    · rcases le_or_lt (k + 2) (x.length + readyBlock.length) with hk2 | hk2
      · -- k fully inside the block: its paren-free prefix meets an occurrence
        have hkt : k - x.length + 2 ≤ readyBlock.length := by omega
        have hcov := @seg_sub_all _ _ _ _ x.length (k - x.length) hg1
          (by omega) (by omega)
        have htake : ((x ++ readyBlock ++ y).drop x.length).take (k - x.length) =
            readyBlock.take (k - x.length) := by
          rw [hdropx, List.take_append_of_le_length (by omega)]
        rw [htake] at hcov
        have hocc : occAt ([')', ';']) readyBlock (k - x.length) = true := by
          have h1 : occAt ([')', ';']) (readyBlock ++ y) (k - x.length) = true := by
            have h0 := (occAt_right_iff (a := x) (b := readyBlock ++ y)
              (i := k) hkx).mp (by rw [← easc]; exact hK)
            exact h0
          exact (occAt_left_iff (by omega)).mp h1
        exact gapBlocks_refute (by decide) (by omega) hcov hocc
      · -- k straddles the right boundary: the character at k is a brace
        have hkeq : k = x.length + readyBlock.length - 1 := by omega
        have e1 : x ++ readyBlock ++ y =
            (x ++ ("\n\n                // Farcade SDK: Signal that the game is fully loaded and ready to play\n                if (window.FarcadeSDK) \x7b\n                    window.FarcadeSDK.singlePlayer.actions.ready();\n                    console.log(\x27Farcade SDK: Game ready signal sent.\x27);\n                ").toList) ++ (['\x7d'] ++ y) := by
          conv_lhs => rw [hCb]
          simp [List.append_assoc]
        have hlen2 : (x ++ ("\n\n                // Farcade SDK: Signal that the game is fully loaded and ready to play\n                if (window.FarcadeSDK) \x7b\n                    window.FarcadeSDK.singlePlayer.actions.ready();\n                    console.log(\x27Farcade SDK: Game ready signal sent.\x27);\n                ").toList).length = k := by
          simp only [List.length_append]
          omega
        have hdk : (x ++ readyBlock ++ y).drop k = ['\x7d'] ++ y := by
          rw [e1, List.drop_left' hlen2]
        have hhd := occAt_cons_head hK
        rw [hdk] at hhd
        simp only [List.singleton_append, List.head?_cons, Option.some.injEq] at hhd
        exact absurd hhd (by decide)
  · -- setPosition right, k left: impossible ordering
    exfalso; omega
  · exfalso; omega
  · -- setPosition right, k right, setInteractive left: impossible ordering
    exfalso; omega
  · -- all three occurrences right of the inserted block
    have hg1' : (((x ++ y).drop ((jA - readyBlock.length) +
        setPositionLit.length)).take ((k - readyBlock.length) -
          ((jA - readyBlock.length) + setPositionLit.length))).all
            (fun c => c != ')') = true := by
      have e1 : (jA - readyBlock.length) + setPositionLit.length =
          jA + setPositionLit.length - readyBlock.length := by omega
      have e2 : (k - readyBlock.length) -
          ((jA - readyBlock.length) + setPositionLit.length) =
          k - (jA + setPositionLit.length) := by omega
      rw [e2, e1, seg_right (by omega)]
      have e3 : (x ++ readyBlock ++ y).drop (jA + setPositionLit.length) =
          y.drop (jA + setPositionLit.length - readyBlock.length - x.length) := by
        rw [seg_right (by simp only [List.length_append]; omega)]
        congr 1
        simp only [List.length_append]
        omega
      rw [e3] at hg1
      exact hg1
    have hg2' : (((x ++ y).drop ((k - readyBlock.length) + 2)).take
        ((jB - readyBlock.length) - ((k - readyBlock.length) + 2))).all
          isWs = true := by
      have e1 : (k - readyBlock.length) + 2 = k + 2 - readyBlock.length := by
        omega
      have e2 : (jB - readyBlock.length) - ((k - readyBlock.length) + 2) =
          jB - (k + 2) := by omega
      rw [e2, e1, seg_right (by omega)]
      have e3 : (x ++ readyBlock ++ y).drop (k + 2) =
          y.drop (k + 2 - readyBlock.length - x.length) := by
        rw [seg_right (by simp only [List.length_append]; omega)]
        congr 1
        simp only [List.length_append]
        omega
      rw [e3] at hg2
      exact hg2
    exact remixPrimary_isSome_of_occ hA' hK' hB' (by omega) hg1' (by omega) hg2'
  · -- setPosition right, k intersecting: impossible ordering
    exfalso; omega
  · exfalso; omega

/-! ### Further occurrence-counting and leftmost-match tools -/

theorem occAt_le_length {pat s : List Char} {i : Nat} (hpat : pat ≠ [])
    (h : occAt pat s i = true) : i ≤ s.length := by
  have hp : pat <+: s.drop i := isPrefixB_iff.mp h
  have h1 := hp.length_le
  have h2 : 0 < pat.length := List.length_pos.mpr hpat
  rw [List.length_drop] at h1
  omega

theorem isInfixB_false_of {p s : List Char} (h : ¬ p <:+: s) :
    isInfixB p s = false :=
  Bool.eq_false_iff.mpr fun hc => h (isInfixB_iff.mp hc)

theorem countOcc_one_occurrence {pat s : List Char} (h : countOcc pat s = 1) :
    pat <:+: s := by
  by_contra hc
  rw [← countOcc_eq_zero] at hc
  omega

theorem occAt_prefix_mono {p q s : List Char} {i : Nat} (hpq : p <+: q)
    (h : occAt q s i = true) : occAt p s i = true := by
  rw [occAt_iff] at h ⊢
  exact hpq.trans h

theorem countOcc_zero_of_prefix {p q s : List Char} (hpq : p <+: q)
    (h : countOcc p s = 0) : countOcc q s = 0 := by
  rw [countOcc_eq_zero] at h ⊢
  exact fun hc => h (hpq.isInfix.trans hc)

theorem scan_none_of_zero {α : Type} {t : List Char → Option α} {l0 s : List Char}
    (hl : ∀ r, (t r).isSome = true → l0 <+: r) (h : countOcc l0 s = 0) :
    scan t s = none :=
  scan_eq_none_of_lead hl (countOcc_eq_zero.mp h)

theorem countOcc_ge_two {pat s : List Char} {i j : Nat} (hpat : pat ≠ [])
    (hij : i ≠ j) (hi : occAt pat s i = true) (hj : occAt pat s j = true) :
    2 ≤ countOcc pat s := by
  rw [countOcc]
  have hmi : i ∈ (List.range (s.length + 1)).filter (fun k => occAt pat s k) :=
    List.mem_filter.mpr
      ⟨List.mem_range.mpr (by have := occAt_le_length hpat hi; omega), hi⟩
  have hmj : j ∈ (List.range (s.length + 1)).filter (fun k => occAt pat s k) :=
    List.mem_filter.mpr
      ⟨List.mem_range.mpr (by have := occAt_le_length hpat hj; omega), hj⟩
  have hsub : ({i, j} : Finset ℕ) ⊆
      ((List.range (s.length + 1)).filter (fun k => occAt pat s k)).toFinset := by
    intro b hb
    rw [List.mem_toFinset]
    rcases Finset.mem_insert.mp hb with rfl | hb
    · exact hmi
    · rw [Finset.mem_singleton] at hb
      subst hb
      exact hmj
  calc 2 = ({i, j} : Finset ℕ).card := (Finset.card_pair hij).symm
    _ ≤ _ := Finset.card_le_card hsub
    _ ≤ _ := List.toFinset_card_le _

theorem noStraddle_of_zero {pat x y : List Char}
    (h : countOcc pat (x ++ y) = 0) : NoStraddle pat x y := by
  intro k hk0 hkl hand
  obtain ⟨hsuf, hpre⟩ := hand
  rw [countOcc_eq_zero] at h
  apply h
  obtain ⟨x0, hx0⟩ := hsuf
  obtain ⟨y0, hy0⟩ := hpre
  refine ⟨x0, y0, ?_⟩
  rw [← hx0, ← hy0]
  simp only [List.append_assoc]
  congr 1
  rw [← List.append_assoc, List.take_append_drop]

theorem noStraddle_of_unique {pat u v : List Char} (hpat : pat ≠ [])
    (h1 : countOcc pat (u ++ (pat ++ v)) = 1) :
    NoStraddle pat u (pat ++ v) := by
  intro k hk0 hkl hand
  obtain ⟨hsuf, hpre⟩ := hand
  have hou : occAt pat (u ++ (pat ++ v)) u.length = true := by
    rw [occAt_iff, List.drop_left]
    exact List.prefix_append _ _
  have hk_le : k ≤ u.length := by
    have hl := hsuf.length_le
    rw [List.length_take] at hl
    omega
  obtain ⟨u0, hu0⟩ := hsuf
  have hlen0 : u0.length = u.length - k := by
    have hc := congrArg List.length hu0
    rw [List.length_append, List.length_take] at hc
    omega
  have ho2 : occAt pat (u ++ (pat ++ v)) (u.length - k) = true := by
    rw [occAt_iff]
    have hdrop : (u ++ (pat ++ v)).drop (u.length - k) =
        pat.take k ++ (pat ++ v) := by
      rw [List.drop_append_of_le_length (by omega)]
      congr 1
      rw [show u.length - k = u0.length from hlen0.symm, ← hu0, List.drop_left]
    rw [hdrop]
    obtain ⟨w, hw⟩ := hpre
    exact ⟨w, by rw [← hw, ← List.append_assoc, List.take_append_drop]⟩
  have hne2 : u.length - k ≠ u.length := by omega
  have := countOcc_ge_two hpat hne2 ho2 hou
  omega

theorem applyShowTitleRule_cases (s : List Char) :
    applyShowTitleRule s = s ∨
    ∃ x' y, s = (x' ++ showTitleLitB) ++ y ∧
      applyShowTitleRule s = (x' ++ showTitleLitB) ++ readyBlock ++ y := by
  cases hsc : scan (tryChain showTitleLitA [showTitleLitB]) s with
  | none =>
    left
    exact replaceRule_none hsc
  | some z =>
    obtain ⟨a, m, r⟩ := z
    right
    obtain ⟨r0, hr0, ht⟩ := scan_eq_some hsc
    obtain ⟨hshape, mid, hm⟩ := tryChain_single_shape ht
    refine ⟨a ++ (showTitleLitA ++ mid), r, ?_, ?_⟩
    · rw [hr0, hshape, hm]
      simp [List.append_assoc]
    · have hout : applyShowTitleRule s = a ++ (m ++ readyBlock) ++ r :=
        replaceRule_some hsc
      rw [hout, hm]
      simp [List.append_assoc]

theorem scan_tryLit_first {pat pre post : List Char} (hpat : pat ≠ [])
    (hpre : ¬ pat <:+: pre) (hself : rightBlocksB pat pat = true) :
    scan (tryLit pat) (pre ++ pat ++ post) = some (pre, (pat, post)) := by
  have easc : pre ++ pat ++ post = pre ++ (pat ++ post) := by
    simp [List.append_assoc]
  have hocc : occAt pat (pre ++ pat ++ post) pre.length = true := by
    rw [easc]
    exact occAt_mid _ _ _
  have hsome : (scan (tryLit pat) (pre ++ pat ++ post)).isSome = true := by
    apply scan_isSome_of (i := pre.length)
    rw [easc, List.drop_left]
    rw [tryLit, if_pos (isPrefixB_iff.mpr (List.prefix_append _ _))]
    rfl
  cases hsc : scan (tryLit pat) (pre ++ pat ++ post) with
  | none => rw [hsc] at hsome; cases hsome
  | some z =>
    obtain ⟨a, m, r⟩ := z
    obtain ⟨r0, hr0, ht⟩ := scan_eq_some hsc
    obtain ⟨hm, hr1⟩ := tryLit_eq_some ht
    have hle : a.length ≤ pre.length := by
      by_contra hlt
      push_neg at hlt
      have hnone := scan_tryLit_leftmost hsc pre.length hlt
      rw [hocc] at hnone
      cases hnone
    have hoa : occAt pat (pre ++ pat ++ post) a.length = true := by
      rw [occAt_iff, hr0, List.drop_left, hr1]
      exact List.prefix_append _ _
    have heq : a.length = pre.length := by
      rcases Nat.lt_or_ge a.length pre.length with hlt | hge
      · exfalso
        have h' : occAt pat (pre ++ (pat ++ post)) a.length = true := by
          rw [← easc]
          exact hoa
        rcases le_or_lt (a.length + pat.length) pre.length with hin | hstr
        · have hip := (occAt_left_iff hin).mp h'
          exact hpre (infix_iff_occAt.mpr
            ⟨a.length, occAt_le_length hpat hip, hip⟩)
        · obtain ⟨-, hdrop⟩ := occAt_straddle h' hlt hstr
          have hkl : pre.length - a.length < pat.length := by omega
          have hdp : pat.drop (pre.length - a.length) <+: pat := by
            have hlen : (pat.drop (pre.length - a.length)).length ≤
                pat.length := by
              rw [List.length_drop]
              omega
            exact (prefix_append_le hlen).mp hdrop
          rw [rightBlocksB, List.all_eq_true] at hself
          have h2 := hself (pre.length - a.length) (List.mem_range.mpr hkl)
          simp only [Bool.or_eq_true, beq_iff_eq, Bool.not_eq_true'] at h2
          rcases h2 with h2 | h2
          · omega
          · rw [prefComp, if_pos (by rw [List.length_drop]; omega)] at h2
            have hdb := isPrefixB_iff.mpr hdp
            rw [h2] at hdb
            cases hdb
      · omega
    have e2 : pre ++ (pat ++ post) = a ++ r0 := by
      rw [← easc]
      exact hr0
    obtain ⟨ha, hb⟩ := List.append_inj e2 heq.symm
    have hr2 : pat ++ post = pat ++ r := by
      rw [hb, hr1]
    have hrpost : r = post := by
      have hccc := congrArg (List.drop pat.length) hr2
      rw [List.drop_left, List.drop_left] at hccc
      exact hccc.symm
    rw [hm]
    rw [hrpost]
    rw [← ha]

/-! ### Occurrence counts through the pipeline stages -/

theorem applyShowTitleRule_countOcc {pat : List Char} (hpat : pat ≠ [])
    (hL : leftBlocksB pat showTitleLitB = true)
    (hCl : rightBlocksB pat readyBlock = true)
    (hCr : leftBlocksB pat readyBlock = true)
    (hC0 : countOcc pat readyBlock = 0) (s : List Char) :
    countOcc pat (applyShowTitleRule s) = countOcc pat s := by
  have h := @replaceRule_countOcc pat readyBlock showTitleLitB
    (tryChain showTitleLitA [showTitleLitB]) hpat
    (fun r0 m r ht => ⟨(tryChain_single_shape ht).1,
      ((tryChain_single_shape ht).2).elim fun mid hm =>
        ⟨showTitleLitA ++ mid, hm⟩⟩)
    hL hCl hCr s
  show countOcc pat (replaceRule (tryChain showTitleLitA [showTitleLitB])
    (fun m => m ++ readyBlock) s) = countOcc pat s
  rw [h, hC0]
  simp

theorem applyPhaserRule_countOcc {pat : List Char} (hpat : pat ≠ [])
    (hL : leftBlocksB pat phaserGameLit = true)
    (hCl : rightBlocksB pat phaserBlock = true)
    (hCr : leftBlocksB pat phaserBlock = true)
    (hC0 : countOcc pat phaserBlock = 0) (s : List Char) :
    countOcc pat (applyPhaserRule s) = countOcc pat s := by
  have h := @replaceRule_countOcc pat phaserBlock phaserGameLit
    (tryLit phaserGameLit) hpat
    (fun r0 m r ht => by
      obtain ⟨hm, hr⟩ := tryLit_eq_some ht
      subst hm
      exact ⟨hr, [], by simp⟩)
    hL hCl hCr s
  show countOcc pat (replaceRule (tryLit phaserGameLit)
    (fun m => m ++ phaserBlock) s) = countOcc pat s
  rw [h, hC0]
  simp

theorem remixGameOverRule_countOcc (s : List Char) :
    countOcc gameOverMarker (Remix.applyGameOverRule s) =
      countOcc gameOverMarker s +
        (if (scan tryGameOverRemix s).isSome = true then 1 else 0) := by
  have h := @replaceRule_countOcc gameOverMarker remixGameOverBlock
    setInteractiveLit tryGameOverRemix (by decide)
    (fun r0 m r ht => tryGameOverRemix_eq_some ht)
    (by decide) (by decide) (by decide) s
  show countOcc gameOverMarker (replaceRule tryGameOverRemix
    (fun m => m ++ remixGameOverBlock) s) = _
  rw [h, show countOcc gameOverMarker remixGameOverBlock = 1 from by decide]

theorem part0GameOverRule_countOcc (s : List Char) :
    countOcc gameOverMarker (Part0.applyGameOverRule s) =
      countOcc gameOverMarker s +
        (if (scan (tryChain part0SetPositionLit [setInteractiveLit]) s).isSome
            = true then 1 else 0) := by
  have h := @replaceRule_countOcc gameOverMarker part0GameOverBlock
    setInteractiveLit (tryChain part0SetPositionLit [setInteractiveLit])
    (by decide)
    (fun r0 m r ht => ⟨(tryChain_single_shape ht).1,
      ((tryChain_single_shape ht).2).elim fun mid hm =>
        ⟨part0SetPositionLit ++ mid, hm⟩⟩)
    (by decide) (by decide) (by decide) s
  show countOcc gameOverMarker (replaceRule
    (tryChain part0SetPositionLit [setInteractiveLit])
    (fun m => m ++ part0GameOverBlock) s) = _
  rw [h, show countOcc gameOverMarker part0GameOverBlock = 1 from by decide]

theorem remixAltReplace_countOcc (s : List Char) :
    countOcc gameOverMarker (replaceRule tryAlternativeRemix
      (fun m => m ++ remixAlternativeBlock) s) =
      countOcc gameOverMarker s +
        (if (scan tryAlternativeRemix s).isSome = true then 1 else 0) := by
  have h := @replaceRule_countOcc gameOverMarker remixAlternativeBlock
    closeBraceParenLit tryAlternativeRemix (by decide)
    (fun r0 m r ht => tryAlternativeRemix_eq_some ht)
    (by decide) (by decide) (by decide) s
  rw [h, show countOcc gameOverMarker remixAlternativeBlock = 1 from by decide]

theorem part0FallbackReplace_countOcc (s : List Char) :
    countOcc gameOverMarker (replaceRule
      (tryChain removeAllListenersLit [startGameLit, closeBraceParenLit])
      (fun m => m ++ part0FallbackBlock) s) =
      countOcc gameOverMarker s +
        (if (scan (tryChain removeAllListenersLit
            [startGameLit, closeBraceParenLit]) s).isSome = true
          then 1 else 0) := by
  have h := @replaceRule_countOcc gameOverMarker part0FallbackBlock
    closeBraceParenLit
    (tryChain removeAllListenersLit [startGameLit, closeBraceParenLit])
    (by decide)
    (fun r0 m r ht => ⟨(tryChain_pair_shape ht).1,
      ((tryChain_pair_shape ht).2).elim fun m1 h1 => h1.elim fun m2 hm =>
        ⟨removeAllListenersLit ++ m1 ++ startGameLit ++ m2, hm⟩⟩)
    (by decide) (by decide) (by decide) s
  rw [h, show countOcc gameOverMarker part0FallbackBlock = 1 from by decide]

/-! ### Guard and no-match behaviour of the individual stages -/

theorem remixAlt_guard_false {s : List Char}
    (h : isInfixB gameOverMarker s = false) :
    Remix.applyAlternativeRule s =
      replaceRule tryAlternativeRemix
        (fun m => m ++ remixAlternativeBlock) s := by
  simp [Remix.applyAlternativeRule, h]

theorem remixAlt_guard_true {s : List Char}
    (h : isInfixB gameOverMarker s = true) :
    Remix.applyAlternativeRule s = s := by
  simp [Remix.applyAlternativeRule, h]

theorem remixEom_guard_true {s : List Char}
    (h : isInfixB gameOverMarker s = true) :
    Remix.applyEndOfMethodRule s = s := by
  simp [Remix.applyEndOfMethodRule, h]

theorem part0Fallback_guard_false {s : List Char}
    (h : isInfixB gameOverMarker s = false) :
    Part0.applyFallbackRule s =
      replaceRule (tryChain removeAllListenersLit
        [startGameLit, closeBraceParenLit])
        (fun m => m ++ part0FallbackBlock) s := by
  simp [Part0.applyFallbackRule, h]

theorem part0Fallback_guard_true {s : List Char}
    (h : isInfixB gameOverMarker s = true) :
    Part0.applyFallbackRule s = s := by
  simp [Part0.applyFallbackRule, h]

theorem remixAlternativeRule_id {s : List Char}
    (hsc : scan tryAlternativeRemix s = none) :
    Remix.applyAlternativeRule s = s := by
  simp only [Remix.applyAlternativeRule]
  split
  · rfl
  · exact replaceRule_none hsc

theorem remixEndOfMethodRule_id {s : List Char}
    (hsc : scan tryEndOfMethodRemix s = none) :
    Remix.applyEndOfMethodRule s = s := by
  simp only [Remix.applyEndOfMethodRule]
  split
  · rfl
  · rw [hsc]

theorem part0FallbackRule_id {s : List Char}
    (hsc : scan (tryChain removeAllListenersLit
      [startGameLit, closeBraceParenLit]) s = none) :
    Part0.applyFallbackRule s = s := by
  simp only [Part0.applyFallbackRule]
  split
  · rfl
  · exact replaceRule_none hsc

/-! ### Matcher behaviour across the ready-block insertion -/

theorem remixPrimary_none_showTitle {doc : List Char}
    (hp : scan tryGameOverRemix doc = none) :
    scan tryGameOverRemix (applyShowTitleRule doc) = none := by
  rcases applyShowTitleRule_cases doc with hst | ⟨x', y, hdoc, hst⟩
  · rw [hst]
    exact hp
  · rw [hst]
    cases hq : scan tryGameOverRemix
        ((x' ++ showTitleLitB) ++ readyBlock ++ y) with
    | none => rfl
    | some z =>
      exfalso
      have hs : (scan tryGameOverRemix
          ((x' ++ showTitleLitB) ++ readyBlock ++ y)).isSome = true := by
        rw [hq]
        rfl
      have hback := remixPrimary_isSome_ready_bwd rfl hs
      rw [← hdoc, hp] at hback
      cases hback

theorem part0Primary_none_showTitle {doc : List Char}
    (hp : scan (tryChain part0SetPositionLit [setInteractiveLit]) doc = none) :
    scan (tryChain part0SetPositionLit [setInteractiveLit])
      (applyShowTitleRule doc) = none := by
  rcases applyShowTitleRule_cases doc with hst | ⟨x', y, hdoc, hst⟩
  · rw [hst]
    exact hp
  · rw [hst]
    cases hq : scan (tryChain part0SetPositionLit [setInteractiveLit])
        ((x' ++ showTitleLitB) ++ readyBlock ++ y) with
    | none => rfl
    | some z =>
      exfalso
      have hs : (scan (tryChain part0SetPositionLit [setInteractiveLit])
          ((x' ++ showTitleLitB) ++ readyBlock ++ y)).isSome = true := by
        rw [hq]
        rfl
      have hback := chain2_isSome_insert_bwd (by decide) (by decide)
        (by decide) (by decide) (by decide) (by decide) (by decide) (by decide)
        hs
      rw [← hdoc, hp] at hback
      cases hback

theorem remixAlt_some_showTitle {doc : List Char}
    (hf : (scan tryAlternativeRemix doc).isSome = true) :
    (scan tryAlternativeRemix (applyShowTitleRule doc)).isSome = true := by
  rcases applyShowTitleRule_cases doc with hst | ⟨x', y, hdoc, hst⟩
  · rw [hst]
    exact hf
  · rw [hst]
    rw [hdoc] at hf
    exact remixAlt_isSome_ready_fwd rfl hf

theorem part0Fallback_some_showTitle {doc : List Char}
    (hf : (scan (tryChain removeAllListenersLit
      [startGameLit, closeBraceParenLit]) doc).isSome = true) :
    (scan (tryChain removeAllListenersLit [startGameLit, closeBraceParenLit])
      (applyShowTitleRule doc)).isSome = true := by
  rcases applyShowTitleRule_cases doc with hst | ⟨x', y, hdoc, hst⟩
  · rw [hst]
    exact hf
  · rw [hst]
    rw [hdoc] at hf
    exact chain3_isSome_insert_fwd (by decide) (by decide) (by decide) rfl
      (by decide) (by decide) (by decide) hf

theorem marker_infix_showTitle {doc : List Char}
    (hm : isInfixB gameOverMarker doc = true) :
    isInfixB gameOverMarker (applyShowTitleRule doc) = true := by
  rcases applyShowTitleRule_cases doc with hst | ⟨x', y, hdoc, hst⟩
  · rw [hst]
    exact hm
  · rw [hst]
    obtain ⟨i, hi, hocc⟩ := infix_iff_occAt.mp (isInfixB_iff.mp hm)
    rw [hdoc] at hocc
    rcases occAt_insert_fwd (C := readyBlock) rfl (by decide) hocc with
      ⟨-, h2⟩ | ⟨-, h2⟩
    · exact isInfixB_iff.mpr (infix_iff_occAt.mpr
        ⟨i, occAt_le_length (by decide) h2, h2⟩)
    · exact isInfixB_iff.mpr (infix_iff_occAt.mpr
        ⟨i + readyBlock.length, occAt_le_length (by decide) h2, h2⟩)

theorem applyPhaserRule_countOcc_marker (s : List Char) :
    countOcc gameOverMarker (applyPhaserRule s) = countOcc gameOverMarker s :=
  applyPhaserRule_countOcc (by decide) (by decide) (by decide) (by decide)
    (countOcc_zero_of_isInfixB (by decide)) s

/-! ### The claims -/

/-- Claim C1, counterexample: with the destination unwritable (no writable
path, modelling a missing destination directory), both scripts still run to
completion — the write error is only logged inside `writeFile`, and no error
reaches `integrateFarcade`, which prints its success messages. -/
theorem write_failure_still_completes :
    (Remix.integrateFarcade c1fs).2.2 = RunResult.completed ∧
    (Part0.integrateFarcade c1fs).2.2 = RunResult.completed ∧
    (Remix.integrateFarcade c1fs).2.1 =
      [LogEvent.errorWriting "index.farcade.html"] ∧
    (Part0.integrateFarcade c1fs).2.1 =
      [LogEvent.errorWriting "index.farcade.html"] := by
  decide

/-- Claim C1 (amended): when the template reads successfully but the
destination path is not writable, both scripts leave the file system
unchanged — in particular the source file is untouched and nothing is
written — and log a write-error diagnostic; the run nevertheless reports
completion rather than surfacing the error. -/
theorem write_failure_logged_fs_unchanged (fs : FileSystem) (html : List Char)
    (hread : readFile config.indexTemplate fs = some html)
    (hne : html.isEmpty = false)
    (hw : fs.writable.contains config.outputFile = false) :
    Remix.integrateFarcade fs =
      (fs, [LogEvent.errorWriting config.outputFile], RunResult.completed) ∧
    Part0.integrateFarcade fs =
      (fs, [LogEvent.errorWriting config.outputFile], RunResult.completed) := by
  have hmem : config.outputFile ∉ fs.writable := by simpa using hw
  constructor
  · simp [Remix.integrateFarcade, hread, hne, writeFile, hmem]
  · simp [Part0.integrateFarcade, hread, hne, writeFile, hmem]

/-- Claim C1, witness for the amended theorem at the concrete file system
`c1fs`. -/
theorem write_failure_logged_fs_unchanged_witness :
    Remix.integrateFarcade c1fs =
      (c1fs, [LogEvent.errorWriting config.outputFile], RunResult.completed) ∧
    Part0.integrateFarcade c1fs =
      (c1fs, [LogEvent.errorWriting config.outputFile], RunResult.completed) :=
  write_failure_logged_fs_unchanged c1fs ['x'] (by decide) (by decide)
    (by decide)

/-- Claim C2, counterexample: `c2doc` has no head-closing marker, yet the
output of either script differs from the input — the later game-logic rules
still fire. -/
theorem no_head_marker_output_differs :
    isInfixB headLit c2doc = false ∧
    Remix.injectFarcadeGameLogic (injectFarcadeSDK c2doc) ≠ c2doc ∧
    Part0.injectFarcadeGameLogic (injectFarcadeSDK c2doc) ≠ c2doc := by
  decide

/-- Claim C2 (amended): for a document without the head-closing marker the
SDK-tag stage is the identity and the run completes without error; the output
written is exactly the game-logic transformation of the input (only the SDK
rule is a no-op, not the whole pipeline). -/
theorem no_head_marker_sdk_stage_noop (doc : List Char) (fs : FileSystem)
    (h : isInfixB headLit doc = false)
    (hread : readFile config.indexTemplate fs = some doc)
    (hne : doc.isEmpty = false) :
    injectFarcadeSDK doc = doc ∧
    Remix.integrateFarcade fs =
      ((writeFile config.outputFile (Remix.injectFarcadeGameLogic doc) fs).1,
       (writeFile config.outputFile (Remix.injectFarcadeGameLogic doc) fs).2,
       RunResult.completed) ∧
    Part0.integrateFarcade fs =
      ((writeFile config.outputFile (Part0.injectFarcadeGameLogic doc) fs).1,
       (writeFile config.outputFile (Part0.injectFarcadeGameLogic doc) fs).2,
       RunResult.completed) := by
  have hsdk : injectFarcadeSDK doc = doc := by
    apply replaceRule_none
    apply scan_none_of_zero (fun r hr => tryLit_lead hr)
    rw [countOcc_eq_zero]
    intro hc
    have hb := isInfixB_iff.mpr hc
    rw [h] at hb
    cases hb
  refine ⟨hsdk, ?_, ?_⟩
  · simp [Remix.integrateFarcade, hread, hne, hsdk]
  · simp [Part0.integrateFarcade, hread, hne, hsdk]

/-- Claim C2, witness for the amended theorem at the document `c2doc` and the
file system `c2fs`. -/
theorem no_head_marker_sdk_stage_noop_witness :
    injectFarcadeSDK c2doc = c2doc ∧
    Remix.integrateFarcade c2fs =
      ((writeFile config.outputFile (Remix.injectFarcadeGameLogic c2doc) c2fs).1,
       (writeFile config.outputFile (Remix.injectFarcadeGameLogic c2doc) c2fs).2,
       RunResult.completed) ∧
    Part0.integrateFarcade c2fs =
      ((writeFile config.outputFile (Part0.injectFarcadeGameLogic c2doc) c2fs).1,
       (writeFile config.outputFile (Part0.injectFarcadeGameLogic c2doc) c2fs).2,
       RunResult.completed) :=
  no_head_marker_sdk_stage_noop c2doc c2fs (by decide) (by decide) (by decide)

/-- Claim C3, counterexample: `c3bad` has no primary anchor and a matching
first fallback anchor, yet both outputs contain two occurrences of the
game-over call — the two copies already present in the input block the
fallback guard, and the claim's "exactly one" fails. -/
theorem fallback_with_preexisting_markers_two_hooks :
    (scan tryGameOverRemix c3bad).isSome = false ∧
    (scan tryAlternativeRemix c3bad).isSome = true ∧
    (scan (tryChain part0SetPositionLit [setInteractiveLit]) c3bad).isSome
      = false ∧
    (scan (tryChain removeAllListenersLit [startGameLit, closeBraceParenLit])
      c3bad).isSome = true ∧
    countOcc gameOverMarker (Remix.injectFarcadeGameLogic c3bad) = 2 ∧
    countOcc gameOverMarker (Part0.injectFarcadeGameLogic c3bad) = 2 := by
  decide

/-- Claim C3 (amended): for a document free of the game-over marker whose
primary game-over anchor is absent but whose first fallback anchor is
present, both scripts emit exactly one occurrence of the game-over call. -/
theorem fallback_injects_exactly_one_hook (doc : List Char)
    (h0 : countOcc gameOverMarker doc = 0)
    (hpR : scan tryGameOverRemix doc = none)
    (hfR : (scan tryAlternativeRemix doc).isSome = true)
    (hpP : scan (tryChain part0SetPositionLit [setInteractiveLit]) doc = none)
    (hfP : (scan (tryChain removeAllListenersLit
      [startGameLit, closeBraceParenLit]) doc).isSome = true) :
    countOcc gameOverMarker (Remix.injectFarcadeGameLogic doc) = 1 ∧
    countOcc gameOverMarker (Part0.injectFarcadeGameLogic doc) = 1 := by
  have hc1 : countOcc gameOverMarker (applyShowTitleRule doc) =
      countOcc gameOverMarker doc :=
    applyShowTitleRule_countOcc (by decide) (by decide) (by decide) (by decide)
      (by decide) doc
  have hguard : isInfixB gameOverMarker (applyShowTitleRule doc) = false := by
    apply isInfixB_false_of
    rw [← countOcc_eq_zero, hc1]
    exact h0
  constructor
  · have hp1 := remixPrimary_none_showTitle hpR
    have hgo : Remix.applyGameOverRule (applyShowTitleRule doc) =
        applyShowTitleRule doc := by
      show replaceRule tryGameOverRemix (fun m => m ++ remixGameOverBlock)
        (applyShowTitleRule doc) = applyShowTitleRule doc
      exact replaceRule_none hp1
    have hf1 := remixAlt_some_showTitle hfR
    have halt := remixAlt_guard_false hguard
    have hc2 : countOcc gameOverMarker (replaceRule tryAlternativeRemix
        (fun m => m ++ remixAlternativeBlock) (applyShowTitleRule doc)) = 1 := by
      rw [remixAltReplace_countOcc, hc1, h0, if_pos hf1]
    have heom := remixEom_guard_true
      (isInfixB_iff.mpr (countOcc_one_occurrence hc2))
    show countOcc gameOverMarker (applyPhaserRule (Remix.applyEndOfMethodRule
      (Remix.applyAlternativeRule (Remix.applyGameOverRule
        (applyShowTitleRule doc))))) = 1
    rw [hgo, halt, heom, applyPhaserRule_countOcc_marker]
    exact hc2
  · have hp1 := part0Primary_none_showTitle hpP
    have hgo : Part0.applyGameOverRule (applyShowTitleRule doc) =
        applyShowTitleRule doc := by
      show replaceRule (tryChain part0SetPositionLit [setInteractiveLit])
        (fun m => m ++ part0GameOverBlock) (applyShowTitleRule doc) =
        applyShowTitleRule doc
      exact replaceRule_none hp1
    have hf1 := part0Fallback_some_showTitle hfP
    have hfb := part0Fallback_guard_false hguard
    have hc2 : countOcc gameOverMarker (replaceRule
        (tryChain removeAllListenersLit [startGameLit, closeBraceParenLit])
        (fun m => m ++ part0FallbackBlock) (applyShowTitleRule doc)) = 1 := by
      rw [part0FallbackReplace_countOcc, hc1, h0, if_pos hf1]
    show countOcc gameOverMarker (applyPhaserRule (Part0.applyFallbackRule
      (Part0.applyGameOverRule (applyShowTitleRule doc)))) = 1
    rw [hgo, hfb, applyPhaserRule_countOcc_marker]
    exact hc2

/-- Claim C3, witness for the amended theorem at the fallback-anchor document
`c3doc`. -/
theorem fallback_injects_exactly_one_hook_witness :
    countOcc gameOverMarker (Remix.injectFarcadeGameLogic c3doc) = 1 ∧
    countOcc gameOverMarker (Part0.injectFarcadeGameLogic c3doc) = 1 :=
  fallback_injects_exactly_one_hook c3doc (by decide) (by decide) (by decide)
    (by decide) (by decide)

/-- Claim C4, counterexample: on the primary game-over anchor the two scripts
produce different outputs — the remix script injects with a 4000 ms delay,
the unnamed script with a 1000 ms delay. -/
theorem scripts_differ_on_primary_anchor :
    Remix.injectFarcadeGameLogic c4doc ≠ Part0.injectFarcadeGameLogic c4doc ∧
    isInfixB (("delayedCall(4000").toList)
      (Remix.injectFarcadeGameLogic c4doc) = true ∧
    isInfixB (("delayedCall(1000").toList)
      (Remix.injectFarcadeGameLogic c4doc) = false ∧
    isInfixB (("delayedCall(1000").toList)
      (Part0.injectFarcadeGameLogic c4doc) = true ∧
    isInfixB (("delayedCall(4000").toList)
      (Part0.injectFarcadeGameLogic c4doc) = false := by
  decide

/-- Claim C4 (amended): the two scripts agree exactly on documents in which
every game-over anchor lead literal is absent — then every game-over rule of
both scripts is a no-op and both pipelines reduce to the shared ready and
event-handler stages. -/
theorem scripts_agree_without_gameover_anchors (doc : List Char)
    (h1 : countOcc setPositionLit doc = 0)
    (h2 : countOcc removeAllListenersLit doc = 0)
    (h3 : countOcc showGameOverLit doc = 0) :
    Remix.injectFarcadeGameLogic doc = Part0.injectFarcadeGameLogic doc := by
  have hc1 : countOcc setPositionLit (applyShowTitleRule doc) = 0 := by
    rw [applyShowTitleRule_countOcc (by decide) (by decide) (by decide)
      (by decide) (by decide)]
    exact h1
  have hc2 : countOcc removeAllListenersLit (applyShowTitleRule doc) = 0 := by
    rw [applyShowTitleRule_countOcc (by decide) (by decide) (by decide)
      (by decide) (by decide)]
    exact h2
  have hc3 : countOcc showGameOverLit (applyShowTitleRule doc) = 0 := by
    rw [applyShowTitleRule_countOcc (by decide) (by decide) (by decide)
      (by decide) (by decide)]
    exact h3
  have hgoR : Remix.applyGameOverRule (applyShowTitleRule doc) =
      applyShowTitleRule doc := by
    show replaceRule tryGameOverRemix (fun m => m ++ remixGameOverBlock)
      (applyShowTitleRule doc) = applyShowTitleRule doc
    exact replaceRule_none
      (scan_none_of_zero (fun r hr => tryGameOverRemix_lead hr) hc1)
  have hgoP : Part0.applyGameOverRule (applyShowTitleRule doc) =
      applyShowTitleRule doc := by
    show replaceRule (tryChain part0SetPositionLit [setInteractiveLit])
      (fun m => m ++ part0GameOverBlock) (applyShowTitleRule doc) =
      applyShowTitleRule doc
    refine replaceRule_none (scan_none_of_zero
      (fun r hr => tryChain_lead hr) ?_)
    exact countOcc_zero_of_prefix (isPrefixB_iff.mp (by decide)) hc1
  have haltR := remixAlternativeRule_id
    (scan_none_of_zero (fun r hr => tryAlternativeRemix_lead hr) hc2)
  have heomR := remixEndOfMethodRule_id
    (scan_none_of_zero (fun r hr => tryEndOfMethodRemix_lead hr) hc3)
  have hfbP := part0FallbackRule_id
    (scan_none_of_zero (fun r hr => tryChain_lead hr) hc2)
  show applyPhaserRule (Remix.applyEndOfMethodRule (Remix.applyAlternativeRule
    (Remix.applyGameOverRule (applyShowTitleRule doc)))) =
    applyPhaserRule (Part0.applyFallbackRule (Part0.applyGameOverRule
      (applyShowTitleRule doc)))
  rw [hgoR, haltR, heomR, hgoP, hfbP]

/-- Claim C4, witness for the amended theorem at a one-character document. -/
theorem scripts_agree_without_gameover_anchors_witness :
    Remix.injectFarcadeGameLogic ['x'] = Part0.injectFarcadeGameLogic ['x'] :=
  scripts_agree_without_gameover_anchors ['x'] (by decide) (by decide)
    (by decide)

/-- Claim C5, counterexample: `c5bad` contains the head-closing marker exactly
once but already carries one copy of the SDK script reference; after the SDK
stage the reference appears twice, not exactly once. -/
theorem sdk_tag_duplicated_when_reference_present :
    countOcc headLit c5bad = 1 ∧
    countOcc farcadeScriptTag c5bad = 1 ∧
    countOcc farcadeScriptTag (injectFarcadeSDK c5bad) = 2 := by
  decide

/-- Claim C5 (amended): for a document containing the head-closing marker
exactly once and the SDK script reference not at all, the SDK stage splits
the document at that marker, inserts the reference and a newline immediately
before it, and the result carries the reference exactly once and the marker
still exactly once. -/
theorem sdk_injection_once_before_marker (doc : List Char)
    (h1 : countOcc headLit doc = 1)
    (h0 : countOcc farcadeScriptTag doc = 0) :
    ∃ u v, doc = u ++ headLit ++ v ∧
      injectFarcadeSDK doc = u ++ (farcadeScriptTag ++ '\n' :: headLit) ++ v ∧
      countOcc farcadeScriptTag (injectFarcadeSDK doc) = 1 ∧
      countOcc headLit (injectFarcadeSDK doc) = 1 := by
  cases hsc : scan (tryLit headLit) doc with
  | none =>
    exfalso
    obtain ⟨i, hi, hocc⟩ := infix_iff_occAt.mp (countOcc_one_occurrence h1)
    have hs := scan_tryLit_isSome_iff.mpr ⟨i, hocc⟩
    rw [hsc] at hs
    cases hs
  | some z =>
    obtain ⟨a, m, r⟩ := z
    obtain ⟨r0, hr0, ht⟩ := scan_eq_some hsc
    obtain ⟨hm, hr1⟩ := tryLit_eq_some ht
    have hdoc : doc = a ++ headLit ++ r := by
      rw [hr0, hr1, List.append_assoc]
    have hdoc2 : a ++ (headLit ++ r) = doc := by
      rw [hdoc, List.append_assoc]
    have hout : injectFarcadeSDK doc =
        a ++ (farcadeScriptTag ++ '\n' :: m) ++ r := replaceRule_some hsc
    rw [hm] at hout
    have e : a ++ (farcadeScriptTag ++ '\n' :: headLit) ++ r =
        a ++ (farcadeScriptTag ++ ['\n']) ++ (headLit ++ r) := by
      simp
    refine ⟨a, r, hdoc, hout, ?_, ?_⟩
    · have hxy : NoStraddle farcadeScriptTag a (headLit ++ r) :=
        noStraddle_of_zero (by rw [hdoc2]; exact h0)
      have hxC : NoStraddle farcadeScriptTag a
          ((farcadeScriptTag ++ ['\n']) ++ (headLit ++ r)) :=
        noStraddle_right (by decide) a (headLit ++ r)
      have hCy : NoStraddle farcadeScriptTag
          (a ++ (farcadeScriptTag ++ ['\n'])) (headLit ++ r) :=
        noStraddle_left (by decide) a (headLit ++ r)
      rw [hout, e, countOcc_insert (by decide) hxy hxC hCy, hdoc2, h0,
        show countOcc farcadeScriptTag (farcadeScriptTag ++ ['\n']) = 1 from
          by decide]
    · have hxy : NoStraddle headLit a (headLit ++ r) :=
        noStraddle_of_unique (by decide) (by rw [hdoc2]; exact h1)
      have hxC : NoStraddle headLit a
          ((farcadeScriptTag ++ ['\n']) ++ (headLit ++ r)) :=
        noStraddle_right (by decide) a (headLit ++ r)
      have hCy : NoStraddle headLit
          (a ++ (farcadeScriptTag ++ ['\n'])) (headLit ++ r) :=
        noStraddle_left (by decide) a (headLit ++ r)
      rw [hout, e, countOcc_insert (by decide) hxy hxC hCy, hdoc2, h1,
        show countOcc headLit (farcadeScriptTag ++ ['\n']) = 0 from by decide]

/-- Claim C5, witness for the amended theorem at a small document with one
marker and no preexisting reference. -/
theorem sdk_injection_once_before_marker_witness :
    countOcc farcadeScriptTag (injectFarcadeSDK (("a</head>b").toList)) = 1 ∧
    countOcc headLit (injectFarcadeSDK (("a</head>b").toList)) = 1 := by
  have h := sdk_injection_once_before_marker (("a</head>b").toList)
    (by decide) (by decide)
  obtain ⟨u, v, -, -, h3, h4⟩ := h
  exact ⟨h3, h4⟩

theorem writeFile_readback {p : String} {c : List Char} {fs : FileSystem}
    (h : fs.writable.contains p = true) :
    readFile p (writeFile p c fs).1 = some c := by
  have hmem : p ∈ fs.writable := by simpa using h
  simp [writeFile, readFile, hmem, List.lookup]

/-- Claim C6 (confirmed): whenever the template read fails, both scripts
abort before any transformation: the read-error and abort diagnostics are
logged, the result is the aborted path, and the file system — in particular
the destination file — is left exactly as it was. -/
theorem read_failure_aborts_without_write (fs : FileSystem)
    (h : readFile config.indexTemplate fs = none) :
    Remix.integrateFarcade fs =
      (fs, [LogEvent.errorReading config.indexTemplate, LogEvent.abortTemplate],
       RunResult.aborted) ∧
    Part0.integrateFarcade fs =
      (fs, [LogEvent.errorReading config.indexTemplate, LogEvent.abortTemplate],
       RunResult.aborted) := by
  constructor
  · simp [Remix.integrateFarcade, h]
  · simp [Part0.integrateFarcade, h]

/-- Claim C6, witness at the empty file system. -/
theorem read_failure_aborts_without_write_witness :
    Remix.integrateFarcade c6fs =
      (c6fs, [LogEvent.errorReading config.indexTemplate,
        LogEvent.abortTemplate], RunResult.aborted) ∧
    Part0.integrateFarcade c6fs =
      (c6fs, [LogEvent.errorReading config.indexTemplate,
        LogEvent.abortTemplate], RunResult.aborted) :=
  read_failure_aborts_without_write c6fs (by decide)

/-- Claim C7 (confirmed): for every input document, each script's full
transformation (SDK tag stage followed by every game-logic rule) only ever
inserts text: the output is obtained from the input by insertions alone, so
every existing character of the input survives unchanged and in order. -/
theorem pipeline_only_inserts (doc : List Char) :
    Insertions doc (Remix.injectFarcadeGameLogic (injectFarcadeSDK doc)) ∧
    Insertions doc (Part0.injectFarcadeGameLogic (injectFarcadeSDK doc)) :=
  ⟨insertions_trans (injectFarcadeSDK_insertions doc)
    (remixGameLogic_insertions _),
   insertions_trans (injectFarcadeSDK_insertions doc)
    (part0GameLogic_insertions _)⟩

/-- Claim C8 (confirmed): the transformation is deterministic — the written
destination content is a function of the template content alone, so two
independent runs (from possibly different file-system states holding the same
template) write byte-identical output. -/
theorem pipeline_deterministic (fs1 fs2 : FileSystem) (doc : List Char)
    (h1 : readFile config.indexTemplate fs1 = some doc)
    (h2 : readFile config.indexTemplate fs2 = some doc)
    (hne : doc.isEmpty = false)
    (hw1 : fs1.writable.contains config.outputFile = true)
    (hw2 : fs2.writable.contains config.outputFile = true) :
    readFile config.outputFile (Remix.integrateFarcade fs1).1 =
      some (Remix.injectFarcadeGameLogic (injectFarcadeSDK doc)) ∧
    readFile config.outputFile (Remix.integrateFarcade fs2).1 =
      some (Remix.injectFarcadeGameLogic (injectFarcadeSDK doc)) ∧
    readFile config.outputFile (Part0.integrateFarcade fs1).1 =
      some (Part0.injectFarcadeGameLogic (injectFarcadeSDK doc)) ∧
    readFile config.outputFile (Part0.integrateFarcade fs2).1 =
      some (Part0.injectFarcadeGameLogic (injectFarcadeSDK doc)) := by
  have hR1 : Remix.integrateFarcade fs1 =
      ((writeFile config.outputFile
          (Remix.injectFarcadeGameLogic (injectFarcadeSDK doc)) fs1).1,
       (writeFile config.outputFile
          (Remix.injectFarcadeGameLogic (injectFarcadeSDK doc)) fs1).2,
       RunResult.completed) := by
    simp [Remix.integrateFarcade, h1, hne]
  have hR2 : Remix.integrateFarcade fs2 =
      ((writeFile config.outputFile
          (Remix.injectFarcadeGameLogic (injectFarcadeSDK doc)) fs2).1,
       (writeFile config.outputFile
          (Remix.injectFarcadeGameLogic (injectFarcadeSDK doc)) fs2).2,
       RunResult.completed) := by
    simp [Remix.integrateFarcade, h2, hne]
  have hP1 : Part0.integrateFarcade fs1 =
      ((writeFile config.outputFile
          (Part0.injectFarcadeGameLogic (injectFarcadeSDK doc)) fs1).1,
       (writeFile config.outputFile
          (Part0.injectFarcadeGameLogic (injectFarcadeSDK doc)) fs1).2,
       RunResult.completed) := by
    simp [Part0.integrateFarcade, h1, hne]
  have hP2 : Part0.integrateFarcade fs2 =
      ((writeFile config.outputFile
          (Part0.injectFarcadeGameLogic (injectFarcadeSDK doc)) fs2).1,
       (writeFile config.outputFile
          (Part0.injectFarcadeGameLogic (injectFarcadeSDK doc)) fs2).2,
       RunResult.completed) := by
    simp [Part0.integrateFarcade, h2, hne]
  refine ⟨?_, ?_, ?_, ?_⟩
  · rw [hR1]
    exact writeFile_readback hw1
  · rw [hR2]
    exact writeFile_readback hw2
  · rw [hP1]
    exact writeFile_readback hw1
  · rw [hP2]
    exact writeFile_readback hw2

/-- Claim C8, witness: two runs at the same concrete file system. -/
theorem pipeline_deterministic_witness :
    readFile config.outputFile (Remix.integrateFarcade c8fs).1 =
      some (Remix.injectFarcadeGameLogic (injectFarcadeSDK ['x'])) ∧
    readFile config.outputFile (Remix.integrateFarcade c8fs).1 =
      some (Remix.injectFarcadeGameLogic (injectFarcadeSDK ['x'])) ∧
    readFile config.outputFile (Part0.integrateFarcade c8fs).1 =
      some (Part0.injectFarcadeGameLogic (injectFarcadeSDK ['x'])) ∧
    readFile config.outputFile (Part0.integrateFarcade c8fs).1 =
      some (Part0.injectFarcadeGameLogic (injectFarcadeSDK ['x'])) :=
  pipeline_deterministic c8fs c8fs ['x'] (by decide) (by decide) (by decide)
    (by decide) (by decide)

theorem scan_chain_first {l0 l1 pre mid post : List Char}
    (h0 : l0 ≠ []) (hl1 : l1 ≠ [])
    (hpre : ¬ l0 <:+: pre) (hself0 : rightBlocksB l0 l0 = true)
    (hmid : ¬ l1 <:+: mid) (hself1 : rightBlocksB l1 l1 = true) :
    scan (tryChain l0 [l1]) (pre ++ l0 ++ mid ++ l1 ++ post) =
      some (pre, (l0 ++ mid ++ l1, post)) := by
  have easc : pre ++ l0 ++ mid ++ l1 ++ post =
      pre ++ (l0 ++ (mid ++ l1 ++ post)) := by
    simp [List.append_assoc]
  have htl : tryLit l0 (l0 ++ (mid ++ l1 ++ post)) =
      some (l0, mid ++ l1 ++ post) := by
    rw [tryLit, if_pos (isPrefixB_iff.mpr (List.prefix_append _ _)),
      List.drop_left]
  have hsc2 : scan (tryLit l1) (mid ++ l1 ++ post) = some (mid, (l1, post)) :=
    scan_tryLit_first hl1 hmid hself1
  have hcomp : tryChain l0 [l1] (l0 ++ (mid ++ l1 ++ post)) =
      some (l0 ++ mid ++ l1, post) := by
    simp only [tryChain, htl, chainFrom, hsc2]
    simp [List.append_assoc]
  have hsome : (scan (tryChain l0 [l1])
      (pre ++ l0 ++ mid ++ l1 ++ post)).isSome = true := by
    apply scan_isSome_of (i := pre.length)
    rw [easc, List.drop_left, hcomp]
    rfl
  cases hsc : scan (tryChain l0 [l1]) (pre ++ l0 ++ mid ++ l1 ++ post) with
  | none => rw [hsc] at hsome; cases hsome
  | some z =>
    obtain ⟨a, m, r⟩ := z
    obtain ⟨r0, hr0, ht⟩ := scan_eq_some hsc
    have hoa : occAt l0 (pre ++ l0 ++ mid ++ l1 ++ post) a.length = true := by
      rw [occAt_iff, hr0, List.drop_left]
      exact tryChain_lead (by rw [ht]; rfl)
    have hle : a.length ≤ pre.length := by
      by_contra hlt
      push_neg at hlt
      have hnone := scan_leftmost hsc pre.length hlt
      rw [easc, List.drop_left, hcomp] at hnone
      cases hnone
    have heq : a.length = pre.length := by
      rcases Nat.lt_or_ge a.length pre.length with hlt | hge
      · exfalso
        have hocc : occAt l0 (pre ++ (l0 ++ (mid ++ l1 ++ post)))
            a.length = true := by
          rw [← easc]
          exact hoa
        rcases le_or_lt (a.length + l0.length) pre.length with hin | hstr
        · have hip := (occAt_left_iff hin).mp hocc
          exact hpre (infix_iff_occAt.mpr
            ⟨a.length, occAt_le_length h0 hip, hip⟩)
        · obtain ⟨-, hdrop⟩ := occAt_straddle hocc hlt hstr
          have hkl : pre.length - a.length < l0.length := by omega
          have hdp : l0.drop (pre.length - a.length) <+: l0 := by
            have hlen : (l0.drop (pre.length - a.length)).length ≤
                l0.length := by
              rw [List.length_drop]
              omega
            exact (prefix_append_le hlen).mp hdrop
          rw [rightBlocksB, List.all_eq_true] at hself0
          have h2 := hself0 (pre.length - a.length) (List.mem_range.mpr hkl)
          simp only [Bool.or_eq_true, beq_iff_eq, Bool.not_eq_true'] at h2
          rcases h2 with h2 | h2
          · omega
          · rw [prefComp, if_pos (by rw [List.length_drop]; omega)] at h2
            have hdb := isPrefixB_iff.mpr hdp
            rw [h2] at hdb
            cases hdb
      · omega
    have e2 : pre ++ (l0 ++ (mid ++ l1 ++ post)) = a ++ r0 := by
      rw [← easc]
      exact hr0
    obtain ⟨ha, hb⟩ := List.append_inj e2 heq.symm
    rw [← hb, hcomp] at ht
    simp only [Option.some.injEq, Prod.mk.injEq] at ht
    obtain ⟨hm, hr⟩ := ht
    rw [← hm, ← hr, ← ha]

/-- Claim C9 (confirmed): every injection rule is a `replaceRule` over a
leftmost-match `scan`, so each rule makes at most one injection, at the first
position where its pattern matches, and leaves everything after the matched
span unchanged (first conjunct, for every rule).  Concretely for the two
cited rules: the SDK rule patches only the first `</head>` — any further
marker in the suffix is untouched — and the ready rule patches only the
first `showTitleScreen` anchor — any further anchor in the suffix is
untouched. -/
theorem injection_patches_first_occurrence
    (pre1 post1 pre2 mid2 post2 : List Char)
    (h1 : isInfixB headLit pre1 = false)
    (h2 : isInfixB showTitleLitA pre2 = false)
    (h3 : isInfixB showTitleLitB mid2 = false) :
    (∀ (t : List Char → Option (List Char × List Char))
        (render : List Char → List Char) (s a m r : List Char),
      scan t s = some (a, (m, r)) →
        replaceRule t render s = a ++ render m ++ r ∧
        ∀ i, i < a.length → t (s.drop i) = none) ∧
    injectFarcadeSDK (pre1 ++ headLit ++ post1) =
      pre1 ++ (farcadeScriptTag ++ '\n' :: headLit) ++ post1 ∧
    applyShowTitleRule
        (pre2 ++ showTitleLitA ++ mid2 ++ showTitleLitB ++ post2) =
      pre2 ++ (showTitleLitA ++ mid2 ++ showTitleLitB ++ readyBlock)
        ++ post2 := by
  refine ⟨?_, ?_, ?_⟩
  · intro t render s a m r hsc
    exact ⟨replaceRule_some hsc, fun i hi => scan_leftmost hsc i hi⟩
  · have hpre : ¬ headLit <:+: pre1 := by
      intro hc
      have hb := isInfixB_iff.mpr hc
      rw [h1] at hb
      cases hb
    have hs : scan (tryLit headLit) (pre1 ++ headLit ++ post1) =
        some (pre1, (headLit, post1)) :=
      scan_tryLit_first (by decide) hpre (by decide)
    exact replaceRule_some hs
  · have hpre2 : ¬ showTitleLitA <:+: pre2 := by
      intro hc
      have hb := isInfixB_iff.mpr hc
      rw [h2] at hb
      cases hb
    have hmid2 : ¬ showTitleLitB <:+: mid2 := by
      intro hc
      have hb := isInfixB_iff.mpr hc
      rw [h3] at hb
      cases hb
    have hs : scan (tryChain showTitleLitA [showTitleLitB])
        (pre2 ++ showTitleLitA ++ mid2 ++ showTitleLitB ++ post2) =
        some (pre2, (showTitleLitA ++ mid2 ++ showTitleLitB, post2)) :=
      scan_chain_first (by decide) (by decide) hpre2 (by decide) hmid2
        (by decide)
    exact replaceRule_some hs

/-- Claim C9, witness: for the SDK rule a document with two head markers, of
which only the first is patched; for the ready rule a document with two full
title-screen anchors, of which only the first receives the ready block. -/
theorem injection_patches_first_occurrence_witness :
    injectFarcadeSDK (("a").toList ++ headLit ++ ("b</head>c").toList) =
      ("a").toList ++ (farcadeScriptTag ++ '\n' :: headLit) ++
        ("b</head>c").toList ∧
    applyShowTitleRule (("a").toList ++ showTitleLitA ++ ("x").toList ++
        showTitleLitB ++ (showTitleLitA ++ ("y").toList ++ showTitleLitB)) =
      ("a").toList ++ (showTitleLitA ++ ("x").toList ++ showTitleLitB ++
        readyBlock) ++ (showTitleLitA ++ ("y").toList ++ showTitleLitB) := by
  have h := injection_patches_first_occurrence (("a").toList)
    (("b</head>c").toList) (("a").toList) (("x").toList)
    (showTitleLitA ++ ("y").toList ++ showTitleLitB)
    (by decide) (by decide) (by decide)
  exact ⟨h.2.1, h.2.2⟩

/-- Claim C10 (confirmed): the fallback guards inspect the entire document:
when the game-over marker is already present in the input and the primary
anchors do not match, no fallback game-over rule of either script fires —
the whole game-over group is the identity and each pipeline reduces to the
ready stage followed by the event-handler stage. -/
theorem guard_sees_preexisting_marker (doc : List Char)
    (hm : isInfixB gameOverMarker doc = true)
    (hpR : scan tryGameOverRemix doc = none)
    (hpP : scan (tryChain part0SetPositionLit [setInteractiveLit]) doc = none) :
    Remix.injectFarcadeGameLogic doc =
      applyPhaserRule (applyShowTitleRule doc) ∧
    Part0.injectFarcadeGameLogic doc =
      applyPhaserRule (applyShowTitleRule doc) := by
  have hm1 := marker_infix_showTitle hm
  constructor
  · have hp1 := remixPrimary_none_showTitle hpR
    have hgo : Remix.applyGameOverRule (applyShowTitleRule doc) =
        applyShowTitleRule doc := by
      show replaceRule tryGameOverRemix (fun m => m ++ remixGameOverBlock)
        (applyShowTitleRule doc) = applyShowTitleRule doc
      exact replaceRule_none hp1
    show applyPhaserRule (Remix.applyEndOfMethodRule
      (Remix.applyAlternativeRule (Remix.applyGameOverRule
        (applyShowTitleRule doc)))) = _
    rw [hgo, remixAlt_guard_true hm1, remixEom_guard_true hm1]
  · have hp1 := part0Primary_none_showTitle hpP
    have hgo : Part0.applyGameOverRule (applyShowTitleRule doc) =
        applyShowTitleRule doc := by
      show replaceRule (tryChain part0SetPositionLit [setInteractiveLit])
        (fun m => m ++ part0GameOverBlock) (applyShowTitleRule doc) =
        applyShowTitleRule doc
      exact replaceRule_none hp1
    show applyPhaserRule (Part0.applyFallbackRule (Part0.applyGameOverRule
      (applyShowTitleRule doc))) = _
    rw [hgo, part0Fallback_guard_true hm1]

/-- Claim C10, witness: a document already holding the marker followed by a
matching fallback anchor. -/
theorem guard_sees_preexisting_marker_witness :
    Remix.injectFarcadeGameLogic c10doc =
      applyPhaserRule (applyShowTitleRule c10doc) ∧
    Part0.injectFarcadeGameLogic c10doc =
      applyPhaserRule (applyShowTitleRule c10doc) :=
  guard_sees_preexisting_marker c10doc (by decide) (by decide) (by decide)
